import Mathlib

/-!
Tree view of a container checkpoint (`tree.go`).

A shallow embedding of `tree.go`: the root tree builder `buildTree`, the three
appenders `addMountsToTree`, `addDumpStatsToTree`, `addPsTreeToTree`, and the
orchestrator `renderTreeView`.

The display tree is the `treeprint` node type.  Go trees are mutable and are
reached through pointers; here a tree is a value (`Node`), a pointer into it is
the path of child indices leading to the pointed node (`Handle`), and every
mutating call takes the tree and returns the updated tree (state passing).
-/

namespace Checkpointctl

/-! ## The display tree (`treeprint.Node`) -/

/-- A `treeprint` node: the optional meta value, the label and the ordered
children.  The `Root` back-pointer of the Go struct is not represented: it is
determined by the position of the node in the tree. -/
inductive Node where
  | mk (Meta : Option Nat) (Value : String) (Nodes : List Node) : Node
  deriving Repr, Inhabited

namespace Node

/-- Field `Meta` of a node (`nil` is `none`). -/
def Meta : Node → Option Nat
  | mk m _ _ => m

/-- Field `Value` of a node. -/
def Value : Node → String
  | mk _ v _ => v

/-- Field `Nodes` of a node. -/
def Nodes : Node → List Node
  | mk _ _ ns => ns

end Node

/-- A pointer to a node of a tree: the child indices from the root of the tree
down to the node. -/
abbrev Handle := List Nat

/-- The node a handle points to. -/
def getAt : Handle → Node → Option Node
  | [], n => some n
  | i :: is, n =>
    match n.Nodes[i]? with
    | some c => getAt is c
    | none => none

/-- Replace the node a handle points to by its image under `f`. -/
def updateAt (f : Node → Node) : Handle → Node → Node
  | [], n => f n
  | i :: is, n =>
    match n.Nodes[i]? with
    | some c => Node.mk n.Meta n.Value (n.Nodes.set i (updateAt f is c))
    | none => n

/-- Number of children of the node a handle points to. -/
def childCount (st : Node) (n : Handle) : Nat :=
  match getAt n st with
  | some x => x.Nodes.length
  | none => 0

/-- Function `treeprint.NewWithRoot`: a fresh tree that has only a root. -/
def NewWithRoot (root : String) : Node :=
  Node.mk none root []

/-- The statement `n.Nodes = append(n.Nodes, branch)`. -/
def Node.push (branch : Node) (n : Node) : Node :=
  Node.mk n.Meta n.Value (n.Nodes ++ [branch])

/-- Method `(*Node).AddBranch`: append a new node with value `v` and no meta
value to the children of the node `n` points to; the result is the updated tree
and the handle of the new node, the live pointer the Go method returns. -/
def AddBranch (st : Node) (n : Handle) (v : String) : Node × Handle :=
  (updateAt (Node.push (Node.mk none v [])) n st, n ++ [childCount st n])

/-- Method `(*Node).AddMetaBranch`: as `AddBranch`, the new node carrying the
meta value `m`. -/
def AddMetaBranch (st : Node) (n : Handle) (m : Nat) (v : String) : Node × Handle :=
  (updateAt (Node.push (Node.mk (some m) v [])) n st, n ++ [childCount st n])

/-! ## Input records -/

/-- The fields of `containerInfo` that `buildTree` reads. -/
structure containerInfo where
  Name : String
  IP : String
  MAC : String
  Created : String
  Engine : String
  deriving Repr, DecidableEq

/-- The fields of `metadata.ContainerConfig` that `buildTree` reads. -/
structure ContainerConfig where
  ID : String
  RootfsImageName : String
  OCIRuntime : String
  deriving Repr, DecidableEq

/-- The record `archiveSizes` (both fields are `int64`). -/
structure archiveSizes where
  checkpointSize : Int
  rootFsDiffTarSize : Int
  deriving Repr, DecidableEq

/-- One entry of `spec.Spec.Mounts` (`spec.Mount`); `Type_` is its field `Type`. -/
structure Mount where
  Destination : String
  Type_ : String
  Source : String
  deriving Repr, DecidableEq

/-- The field of `spec.Spec` that the mounts appender reads. -/
structure Spec where
  Mounts : List Mount
  deriving Repr, DecidableEq

/-- The counters of `images.DumpStatsEntry` that the statistics appender reads.
They are optional fields of the protobuf message. -/
structure DumpStatsEntry where
  FreezingTime : Option Nat
  FrozenTime : Option Nat
  MemdumpTime : Option Nat
  MemwriteTime : Option Nat
  PagesScanned : Option Nat
  PagesWritten : Option Nat
  deriving Repr, DecidableEq

namespace DumpStatsEntry

/-- Getter `GetFreezingTime`: the counter, 0 when it is not set. -/
def GetFreezingTime (x : DumpStatsEntry) : Nat := x.FreezingTime.getD 0

/-- Getter `GetFrozenTime`. -/
def GetFrozenTime (x : DumpStatsEntry) : Nat := x.FrozenTime.getD 0

/-- Getter `GetMemdumpTime`. -/
def GetMemdumpTime (x : DumpStatsEntry) : Nat := x.MemdumpTime.getD 0

/-- Getter `GetMemwriteTime`. -/
def GetMemwriteTime (x : DumpStatsEntry) : Nat := x.MemwriteTime.getD 0

/-- Getter `GetPagesScanned`. -/
def GetPagesScanned (x : DumpStatsEntry) : Nat := x.PagesScanned.getD 0

/-- Getter `GetPagesWritten`. -/
def GetPagesWritten (x : DumpStatsEntry) : Nat := x.PagesWritten.getD 0

end DumpStatsEntry

/-- The fields of `crit.PsTree` that the process-tree appender reads: process
identifier, command name and the ordered child processes. -/
inductive PsTree where
  | mk (PId : Nat) (Comm : String) (Children : List PsTree) : PsTree
  deriving Repr, Inhabited

namespace PsTree

/-- Field `PId`. -/
def PId : PsTree → Nat
  | mk p _ _ => p

/-- Field `Comm`. -/
def Comm : PsTree → String
  | mk _ c _ => c

/-- Field `Children`. -/
def Children : PsTree → List PsTree
  | mk _ _ cs => cs

end PsTree

/-! ## The root tree builder -/

/-- Function `buildTree`.  It assigns to `ci.Name`, so the record is returned
next to the tree.  `ByteToString` is `metadata.ByteToString`, the rendering of
a byte count. -/
def buildTree (ByteToString : Int → String) (ci : containerInfo)
    (containerConfig : ContainerConfig) (sizes : archiveSizes) : containerInfo × Node :=
  let ci := if ci.Name = "" then { ci with Name := "Container" } else ci
  let tree := NewWithRoot ci.Name
  let tree := (AddBranch tree [] ("Image: " ++ containerConfig.RootfsImageName)).1
  let tree := (AddBranch tree [] ("ID: " ++ containerConfig.ID)).1
  let tree := (AddBranch tree [] ("Runtime: " ++ containerConfig.OCIRuntime)).1
  let tree := (AddBranch tree [] ("Created: " ++ ci.Created)).1
  let tree := (AddBranch tree [] ("Engine: " ++ ci.Engine)).1
  let tree := if ci.IP ≠ "" then (AddBranch tree [] ("IP: " ++ ci.IP)).1 else tree
  let tree := if ci.MAC ≠ "" then (AddBranch tree [] ("MAC: " ++ ci.MAC)).1 else tree
  let tree := (AddBranch tree [] ("Checkpoint Size: " ++ ByteToString sizes.checkpointSize)).1
  let tree :=
    if sizes.rootFsDiffTarSize ≠ 0 then
      (AddBranch tree [] ("Root Fs Diff Size: " ++ ByteToString sizes.rootFsDiffTarSize)).1
    else tree
  (ci, tree)

/-! ## The appenders -/

/-- Function `addMountsToTree`; `tree` is the node the Go argument points to. -/
def addMountsToTree (tree : Node) (specDump : Spec) : Node :=
  let (tree, mountsTree) := AddBranch tree [] "Overview of Mounts"
  specDump.Mounts.foldl
    (fun tree data =>
      let (tree, mountTree) := AddBranch tree mountsTree ("Destination: " ++ data.Destination)
      let tree := (AddBranch tree mountTree ("Type: " ++ data.Type_)).1
      let tree := (AddBranch tree mountTree ("Source: " ++ data.Source)).1
      tree)
    tree

/-- Function `addDumpStatsToTree`. -/
def addDumpStatsToTree (tree : Node) (dumpStats : DumpStatsEntry) : Node :=
  let (tree, statsTree) := AddBranch tree [] "CRIU dump statistics"
  let tree := (AddBranch tree statsTree
    ("Freezing Time: " ++ toString dumpStats.GetFreezingTime ++ " us")).1
  let tree := (AddBranch tree statsTree
    ("Frozen Time: " ++ toString dumpStats.GetFrozenTime ++ " us")).1
  let tree := (AddBranch tree statsTree
    ("Memdump Time: " ++ toString dumpStats.GetMemdumpTime ++ " us")).1
  let tree := (AddBranch tree statsTree
    ("Memwrite Time: " ++ toString dumpStats.GetMemwriteTime ++ " us")).1
  let tree := (AddBranch tree statsTree
    ("Pages Scanned: " ++ toString dumpStats.GetPagesScanned ++ " us")).1
  let tree := (AddBranch tree statsTree
    ("Pages Written: " ++ toString dumpStats.GetPagesWritten ++ " us")).1
  tree

mutual
/-- The closure `processNodes` of `addPsTreeToTree`: a meta branch for the
process `root` under the node `tree` points to, then its child processes under
that branch. -/
def processNodes (st : Node) (tree : Handle) : PsTree → Node
  | PsTree.mk pid comm children =>
    let r := AddMetaBranch st tree pid comm
    processNodesLoop r.1 r.2 children
/-- The loop `for _, child := range root.Children` of `processNodes`. -/
def processNodesLoop (st : Node) (node : Handle) : List PsTree → Node
  | [] => st
  | child :: rest => processNodesLoop (processNodes st node child) node rest
end

/-- Function `addPsTreeToTree`. -/
def addPsTreeToTree (tree : Node) (psTree : PsTree) : Node :=
  let (tree, psTreeNode) := AddBranch tree [] "Process tree"
  processNodes tree psTreeNode psTree

/-! ## The orchestrator -/

/-- The fields of `task` that `renderTreeView` reads. -/
structure task where
  outputDir : String
  checkpointFilePath : String
  deriving Repr, DecidableEq

/-- A Go `error`, represented by its message. -/
abbrev Error := String

/-- The package-level display options `mounts`, `stats` and `psTree`. -/
structure Toggles where
  mounts : Bool
  stats : Bool
  psTree : Bool
  deriving Repr, DecidableEq

/-- The functions `renderTreeView` calls that are defined outside `tree.go`.
Each reads the checkpoint it is given and returns its record or an error.
`ExplorePs` stands for `crit.New` on the directory "checkpoint" below the output
directory followed by `ExplorePs`; `treeString` is `(*Node).String` of
`treeprint`. -/
structure Collaborators where
  ReadContainerCheckpointConfigDump : String → Except Error ContainerConfig
  ReadContainerCheckpointSpecDump : String → Except Error Spec
  getContainerInfo : String → Spec → ContainerConfig → Except Error containerInfo
  getArchiveSizes : String → Except Error archiveSizes
  GetDumpStats : String → Except Error DumpStatsEntry
  ExplorePs : String → Except Error PsTree
  ByteToString : Int → String
  treeString : Node → String

/-- The body of the loop of `renderTreeView` up to the two print statements:
the tree of one task, or the error with which `renderTreeView` returns. -/
def renderTreeViewTree (env : Collaborators) (opts : Toggles) (task : task) :
    Except Error Node :=
  match env.ReadContainerCheckpointConfigDump task.outputDir with
  | Except.error err => Except.error err
  | Except.ok containerConfig =>
  match env.ReadContainerCheckpointSpecDump task.outputDir with
  | Except.error err => Except.error err
  | Except.ok specDump =>
  match env.getContainerInfo task.outputDir specDump containerConfig with
  | Except.error err => Except.error err
  | Except.ok ci =>
  match env.getArchiveSizes task.checkpointFilePath with
  | Except.error err => Except.error err
  | Except.ok sizes =>
  let tree := (buildTree env.ByteToString ci containerConfig sizes).2
  let tree := if opts.mounts then addMountsToTree tree specDump else tree
  match (if opts.stats then
      match env.GetDumpStats task.outputDir with
      | Except.error err => Except.error ("failed to get dump statistics: " ++ err)
      | Except.ok dumpStats => Except.ok (addDumpStatsToTree tree dumpStats)
    else Except.ok tree) with
  | Except.error err => Except.error err
  | Except.ok tree =>
  if opts.psTree then
    match env.ExplorePs task.outputDir with
    | Except.error err => Except.error ("failed to get process tree: " ++ err)
    | Except.ok psTree => Except.ok (addPsTreeToTree tree psTree)
  else Except.ok tree

/-- Function `renderTreeView`.  `stdout` is the text written to the standard
output so far, one entry per print statement; the result is the text written
when the function returns and the error it returns (`none` for `nil`). -/
def renderTreeView (env : Collaborators) (opts : Toggles) :
    List task → List String → List String × Option Error
  | [], stdout => (stdout, none)
  | task :: rest, stdout =>
    match renderTreeViewTree env opts task with
    | Except.error err => (stdout, some err)
    | Except.ok tree =>
      renderTreeView env opts rest
        (stdout ++ ["\nDisplaying container checkpoint tree view from "
            ++ task.checkpointFilePath ++ "\n\n",
          env.treeString tree ++ "\n"])

/-! ## Reference shapes, in the words of the specification -/

/-- The sub-branch the specification gives one mount entry: labelled by the
destination, with the two leaves type and source. -/
def mountBranch (data : Mount) : Node :=
  Node.mk none ("Destination: " ++ data.Destination)
    [Node.mk none ("Type: " ++ data.Type_) [], Node.mk none ("Source: " ++ data.Source) []]

mutual
/-- The mirror of a process: the meta node carrying its identifier and command
name, whose children are the mirrors of its child processes, in order. -/
def mirror : PsTree → Node
  | PsTree.mk pid comm children => Node.mk (some pid) comm (mirrorList children)
/-- The mirrors of a list of processes, in order. -/
def mirrorList : List PsTree → List Node
  | [] => []
  | c :: cs => mirror c :: mirrorList cs
end

mutual
/-- Pre-order traversal of a process hierarchy: (identifier, command name). -/
def PsTree.preorder : PsTree → List (Nat × String)
  | PsTree.mk pid comm children => (pid, comm) :: PsTree.preorderList children
/-- Pre-order traversal of a list of process hierarchies. -/
def PsTree.preorderList : List PsTree → List (Nat × String)
  | [] => []
  | c :: cs => PsTree.preorder c ++ PsTree.preorderList cs
end

mutual
/-- Pre-order traversal of a display tree: (meta value, label). -/
def Node.preorder : Node → List (Option Nat × String)
  | Node.mk m v ns => (m, v) :: Node.preorderList ns
/-- Pre-order traversal of a list of display trees. -/
def Node.preorderList : List Node → List (Option Nat × String)
  | [] => []
  | c :: cs => Node.preorder c ++ Node.preorderList cs
end

mutual
/-- Number of nodes of a display tree that carry a meta value. -/
def Node.metaCount : Node → Nat
  | Node.mk m _ ns => (if m.isSome then 1 else 0) + Node.metaCountList ns
/-- Number of nodes of a list of display trees that carry a meta value. -/
def Node.metaCountList : List Node → Nat
  | [] => 0
  | c :: cs => Node.metaCount c + Node.metaCountList cs
end

mutual
/-- Number of processes of a process hierarchy. -/
def PsTree.size : PsTree → Nat
  | PsTree.mk _ _ children => 1 + PsTree.sizeList children
/-- Number of processes of a list of process hierarchies. -/
def PsTree.sizeList : List PsTree → Nat
  | [] => 0
  | c :: cs => PsTree.size c + PsTree.sizeList cs
end

/-! ## The recursion of the process-tree appender, with a trace -/

/-- What a run of the closure `processNodes` did: the processes it was called
on, in the order of the calls, and the largest number of calls that were active
at the same time. -/
structure Trace where
  visited : List (Nat × String)
  maxDepth : Nat
  deriving Repr, DecidableEq

mutual
/-- The closure `processNodes`, recording its calls: `level` is the number of
calls of `processNodes` that are active when this one is made. -/
def processNodesTraced (st : Node) (tree : Handle) (level : Nat) (tr : Trace) :
    PsTree → Node × Trace
  | PsTree.mk pid comm children =>
    let tr := Trace.mk (tr.visited ++ [(pid, comm)]) (max tr.maxDepth (level + 1))
    let r := AddMetaBranch st tree pid comm
    processNodesLoopTraced r.1 r.2 (level + 1) tr children
/-- The loop of `processNodes`, recording the calls made in it. -/
def processNodesLoopTraced (st : Node) (node : Handle) (level : Nat) (tr : Trace) :
    List PsTree → Node × Trace
  | [] => (st, tr)
  | child :: rest =>
    let r := processNodesTraced st node level tr child
    processNodesLoopTraced r.1 node level r.2 rest
end

/-- Function `addPsTreeToTree`, recording the calls of `processNodes`. -/
def addPsTreeToTreeTraced (tree : Node) (psTree : PsTree) : Node × Trace :=
  let (tree, psTreeNode) := AddBranch tree [] "Process tree"
  processNodesTraced tree psTreeNode 0 (Trace.mk [] 0) psTree

mutual
/-- Depth of a process hierarchy: the number of processes on its longest chain
from the root down. -/
def PsTree.depth : PsTree → Nat
  | PsTree.mk _ _ children => 1 + PsTree.depthList children
/-- Largest depth among a list of process hierarchies, 0 for the empty list. -/
def PsTree.depthList : List PsTree → Nat
  | [] => 0
  | c :: cs => max (PsTree.depth c) (PsTree.depthList cs)
end

mutual
/-- Height of a display tree: the number of nodes on its longest chain from the
root down. -/
def Node.height : Node → Nat
  | Node.mk _ _ ns => 1 + Node.heightList ns
/-- Largest height among a list of display trees, 0 for the empty list. -/
def Node.heightList : List Node → Nat
  | [] => 0
  | c :: cs => max (Node.height c) (Node.heightList cs)
end

/-- A process hierarchy that is a single chain of `n + 1` processes. -/
def chain : Nat → PsTree
  | 0 => PsTree.mk 1 "init" []
  | n + 1 => PsTree.mk (n + 2) "sh" [chain n]

/-! ## The input records as part of the state -/

/-- Function `addMountsToTree` together with the record `specDump` points to
after the call: the function reads the record and assigns to none of its
fields. -/
def addMountsToTreeInput (tree : Node) (specDump : Spec) : Node × Spec :=
  (addMountsToTree tree specDump, specDump)

/-- Function `addDumpStatsToTree` together with the record `dumpStats` points to
after the call: the function calls the getters of the record only. -/
def addDumpStatsToTreeInput (tree : Node) (dumpStats : DumpStatsEntry) :
    Node × DumpStatsEntry :=
  (addDumpStatsToTree tree dumpStats, dumpStats)

/-- Function `addPsTreeToTree` together with the hierarchy `psTree` points to
after the call: the closure reads `PId`, `Comm` and `Children` only. -/
def addPsTreeToTreeInput (tree : Node) (psTree : PsTree) : Node × PsTree :=
  (addPsTreeToTree tree psTree, psTree)

/-! ## Collaborator failures -/

/-- Whether a collaborator that `renderTreeView` needs for a task fails: the
configuration read, the spec read, the derivation of the container facts from
what the two reads returned, the archive sizes, the dump statistics when enabled,
the process snapshot when enabled. -/
def collaboratorFails (env : Collaborators) (opts : Toggles) (t : task) : Bool :=
  !(env.ReadContainerCheckpointConfigDump t.outputDir).isOk
    || !(env.ReadContainerCheckpointSpecDump t.outputDir).isOk
    || (match env.ReadContainerCheckpointConfigDump t.outputDir,
          env.ReadContainerCheckpointSpecDump t.outputDir with
        | Except.ok cfg, Except.ok spec => !(env.getContainerInfo t.outputDir spec cfg).isOk
        | _, _ => false)
    || !(env.getArchiveSizes t.checkpointFilePath).isOk
    || (opts.stats && !(env.GetDumpStats t.outputDir).isOk)
    || (opts.psTree && !(env.ExplorePs t.outputDir).isOk)

/-! ## The rendering of byte counts -/

/-- Two decimal digits of the quotient `n / d` after the point. -/
def twoDecimals (n d : Nat) : String :=
  let q := (n % d) * 100 / d
  toString (n / d) ++ "." ++ (if q < 10 then "0" else "") ++ toString q

/-- Modelled from the spec: `metadata.ByteToString`, the function of the
package `lib` that `buildTree` calls; `tree.go` does not contain it.  The
specification says that the byte count is rendered in human-readable units with
KiB/MiB scaling and gives one value, 1048576 rendered as "1.00MiB"; this model
scales by 1024 and prints two decimals directly followed by the unit. -/
def ByteToStringSpec (b : Int) : String :=
  let n := b.toNat
  if n < 1024 then toString n ++ "B"
  else if n < 1024 * 1024 then twoDecimals n 1024 ++ "KiB"
  else if n < 1024 * 1024 * 1024 then twoDecimals n (1024 * 1024) ++ "MiB"
  else twoDecimals n (1024 * 1024 * 1024) ++ "GiB"

/-! ## A sample run -/

/-- Collaborators of a sample checkpoint: every read succeeds. -/
def sampleEnv : Collaborators where
  ReadContainerCheckpointConfigDump := fun _ =>
    Except.ok (ContainerConfig.mk "abc123" "alpine" "runc")
  ReadContainerCheckpointSpecDump := fun _ =>
    Except.ok (Spec.mk [Mount.mk "/data" "bind" "/host/data"])
  getContainerInfo := fun _ _ _ =>
    Except.ok (containerInfo.mk "" "" "" "2024-01-01" "podman")
  getArchiveSizes := fun _ => Except.ok (archiveSizes.mk 1048576 0)
  GetDumpStats := fun _ =>
    Except.ok (DumpStatsEntry.mk (some 0) (some 0) (some 0) (some 0) (some 0) (some 0))
  ExplorePs := fun _ => Except.ok (PsTree.mk 1 "init" [PsTree.mk 5 "sh" []])
  ByteToString := fun b => toString b ++ " B"
  treeString := fun t => t.Value

/-- The task of the sample checkpoint. -/
def sampleTask : task := task.mk "/tmp/cp" "/tmp/cp.tar"

/-- The task of a second checkpoint. -/
def otherTask : task := task.mk "/tmp/cp2" "/tmp/cp2.tar"

/-- The task of a checkpoint whose directory cannot be read. -/
def badTask : task := task.mk "/tmp/bad" "/tmp/bad.tar"

/-- Collaborators as in the sample run, except that the configuration read of the
directory "/tmp/bad" fails. -/
def configFailEnv : Collaborators :=
  { sampleEnv with
    ReadContainerCheckpointConfigDump := fun dir =>
      if dir = "/tmp/bad" then Except.error "boom"
      else Except.ok (ContainerConfig.mk "abc123" "alpine" "runc") }

/-- Collaborators as in the sample run, except that every spec read fails. -/
def specFailEnv : Collaborators :=
  { sampleEnv with ReadContainerCheckpointSpecDump := fun _ => Except.error "boom" }

/-! ## Trees and handles: basic facts -/

@[simp] theorem Node.mk_eta (n : Node) : Node.mk n.Meta n.Value n.Nodes = n := by
  cases n; rfl

@[simp] theorem Node.Meta_mk (m : Option Nat) (v : String) (ns : List Node) :
    (Node.mk m v ns).Meta = m := rfl

@[simp] theorem Node.Value_mk (m : Option Nat) (v : String) (ns : List Node) :
    (Node.mk m v ns).Value = v := rfl

@[simp] theorem Node.Nodes_mk (m : Option Nat) (v : String) (ns : List Node) :
    (Node.mk m v ns).Nodes = ns := rfl

@[simp] theorem Node.push_Meta (b n : Node) : (Node.push b n).Meta = n.Meta := rfl

@[simp] theorem Node.push_Value (b n : Node) : (Node.push b n).Value = n.Value := rfl

@[simp] theorem Node.push_Nodes (b n : Node) : (Node.push b n).Nodes = n.Nodes ++ [b] := rfl

@[simp] theorem getAt_nil (n : Node) : getAt [] n = some n := rfl

@[simp] theorem updateAt_nil (f : Node → Node) (n : Node) : updateAt f [] n = f n := rfl

theorem getAt_cons (i : Nat) (p : Handle) (n c : Node) (h : n.Nodes[i]? = some c) :
    getAt (i :: p) n = getAt p c := by
  simp [getAt, h]

theorem updateAt_cons (f : Node → Node) (i : Nat) (p : Handle) (n c : Node)
    (h : n.Nodes[i]? = some c) :
    updateAt f (i :: p) n = Node.mk n.Meta n.Value (n.Nodes.set i (updateAt f p c)) := by
  simp [updateAt, h]

/-- The handle of the last child leads into the last child. -/
theorem getAt_last (m : Option Nat) (v : String) (ns : List Node) (b : Node) (p : Handle) :
    getAt (ns.length :: p) (Node.mk m v (ns ++ [b])) = getAt p b := by
  apply getAt_cons
  simp

/-- An update below the last child changes the last child only. -/
theorem updateAt_last (f : Node → Node) (m : Option Nat) (v : String) (ns : List Node)
    (b : Node) (p : Handle) :
    updateAt f (ns.length :: p) (Node.mk m v (ns ++ [b]))
      = Node.mk m v (ns ++ [updateAt f p b]) := by
  rw [updateAt_cons f ns.length p _ b (by simp)]
  simp

theorem getAt_append (p q : Handle) (n : Node) :
    getAt (p ++ q) n = (getAt p n).bind (getAt q) := by
  induction p generalizing n with
  | nil => simp
  | cons i p ih =>
    cases h : n.Nodes[i]? with
    | none => simp [getAt, h]
    | some c => simp [getAt, h, ih]

theorem updateAt_append (f : Node → Node) (p q : Handle) (n : Node) :
    updateAt f (p ++ q) n = updateAt (updateAt f q) p n := by
  induction p generalizing n with
  | nil => simp
  | cons i p ih =>
    cases h : n.Nodes[i]? with
    | none => simp [updateAt, h]
    | some c => simp [updateAt, h, ih]

theorem getAt_updateAt (f : Node → Node) (p : Handle) (n x : Node) (h : getAt p n = some x) :
    getAt p (updateAt f p n) = some (f x) := by
  induction p generalizing n with
  | nil => simp at h; simp [h]
  | cons i p ih =>
    cases hc : n.Nodes[i]? with
    | none => simp [getAt, hc] at h
    | some c =>
      rw [getAt_cons i p n c hc] at h
      rw [updateAt_cons f i p n c hc]
      have hi : i < n.Nodes.length := by
        rcases List.getElem?_eq_some_iff.mp hc with ⟨hi, _⟩
        exact hi
      rw [getAt_cons i p _ (updateAt f p c) (by simp [hi])]
      exact ih c h

theorem updateAt_updateAt (f g : Node → Node) (p : Handle) (n : Node) :
    updateAt g p (updateAt f p n) = updateAt (fun x => g (f x)) p n := by
  induction p generalizing n with
  | nil => simp
  | cons i p ih =>
    cases hc : n.Nodes[i]? with
    | none => simp [updateAt, hc]
    | some c =>
      have hi : i < n.Nodes.length := by
        rcases List.getElem?_eq_some_iff.mp hc with ⟨hi, _⟩
        exact hi
      rw [updateAt_cons f i p n c hc, updateAt_cons _ i p n c hc,
        updateAt_cons g i p _ (updateAt f p c) (by simp [hi])]
      simp [ih]

theorem updateAt_congr (f g : Node → Node) (p : Handle) (n x : Node) (h : getAt p n = some x)
    (hfg : f x = g x) : updateAt f p n = updateAt g p n := by
  induction p generalizing n with
  | nil => simp at h; simp [h, hfg]
  | cons i p ih =>
    cases hc : n.Nodes[i]? with
    | none => simp [getAt, hc] at h
    | some c =>
      rw [getAt_cons i p n c hc] at h
      rw [updateAt_cons f i p n c hc, updateAt_cons g i p n c hc, ih c h]

theorem set_of_getElem? (l : List Node) (i : Nat) (c : Node) (h : l[i]? = some c) :
    l.set i c = l := by
  induction l generalizing i with
  | nil => rfl
  | cons a l ih =>
    cases i with
    | zero => simp at h; simp [h]
    | succ i => simp at h; simp [ih i h]

/-- An update that fixes the node it reaches leaves the tree as it is. -/
theorem updateAt_self (f : Node → Node) (p : Handle) (n x : Node) (h : getAt p n = some x)
    (hf : f x = x) : updateAt f p n = n := by
  induction p generalizing n with
  | nil => simp at h; simp [h, hf]
  | cons i p ih =>
    cases hc : n.Nodes[i]? with
    | none => simp [getAt, hc] at h
    | some c =>
      rw [getAt_cons i p n c hc] at h
      rw [updateAt_cons f i p n c hc, ih c h, set_of_getElem? _ i c hc]
      simp

theorem childCount_of_getAt (st : Node) (p : Handle) (x : Node) (h : getAt p st = some x) :
    childCount st p = x.Nodes.length := by
  simp [childCount, h]

/-- At the root `AddBranch` appends a leaf to the children of the root. -/
theorem AddBranch_root (st : Node) (v : String) :
    AddBranch st [] v = (Node.mk st.Meta st.Value (st.Nodes ++ [Node.mk none v []]),
      [st.Nodes.length]) := by
  simp [AddBranch, childCount, Node.push]

/-- On the last child of the root `AddBranch` appends a leaf to that child. -/
theorem AddBranch_last (m : Option Nat) (v : String) (ns : List Node) (b : Node) (s : String) :
    AddBranch (Node.mk m v (ns ++ [b])) [ns.length] s
      = (Node.mk m v (ns ++ [Node.mk b.Meta b.Value (b.Nodes ++ [Node.mk none s []])]),
         [ns.length, b.Nodes.length]) := by
  simp [AddBranch, childCount, getAt_last, updateAt_last, Node.push]

/-- On the last child of the last child of the root `AddBranch` appends a leaf
to that node. -/
theorem AddBranch_last_last (m : Option Nat) (v : String) (ns : List Node) (m1 : Option Nat)
    (v1 : String) (bs : List Node) (c : Node) (s : String) :
    AddBranch (Node.mk m v (ns ++ [Node.mk m1 v1 (bs ++ [c])])) [ns.length, bs.length] s
      = (Node.mk m v (ns ++ [Node.mk m1 v1
            (bs ++ [Node.mk c.Meta c.Value (c.Nodes ++ [Node.mk none s []])])]),
         [ns.length, bs.length, c.Nodes.length]) := by
  simp [AddBranch, childCount, getAt_last, updateAt_last, Node.push]

/-! ## The appenders: shape of the result -/

/-- The loop of `addMountsToTree` appends the sub-branches of the mount entries,
in order, to the branch it works on. -/
theorem addMounts_loop (m : Option Nat) (v : String) (ns : List Node) (l : String)
    (ms : List Mount) (acc : List Node) :
    ms.foldl
        (fun tree data =>
          let (tree, mountTree) :=
            AddBranch tree [ns.length] ("Destination: " ++ data.Destination)
          let tree := (AddBranch tree mountTree ("Type: " ++ data.Type_)).1
          let tree := (AddBranch tree mountTree ("Source: " ++ data.Source)).1
          tree)
        (Node.mk m v (ns ++ [Node.mk none l acc]))
      = Node.mk m v (ns ++ [Node.mk none l (acc ++ ms.map mountBranch)]) := by
  induction ms generalizing acc with
  | nil => simp
  | cons d ms ih =>
    simp only [List.foldl_cons, AddBranch_last, Node.Meta_mk, Node.Value_mk, Node.Nodes_mk,
      AddBranch_last_last, List.nil_append, List.map_cons]
    rw [ih]
    simp [mountBranch]

/-- The tree after `addMountsToTree`, written out. -/
theorem addMountsToTree_eq (t : Node) (spec : Spec) :
    addMountsToTree t spec
      = Node.mk t.Meta t.Value
          (t.Nodes ++ [Node.mk none "Overview of Mounts" (spec.Mounts.map mountBranch)]) := by
  simp only [addMountsToTree, AddBranch_root]
  rw [addMounts_loop]
  simp

/-- The tree after `addDumpStatsToTree`, written out. -/
theorem addDumpStatsToTree_eq (t : Node) (d : DumpStatsEntry) :
    addDumpStatsToTree t d
      = Node.mk t.Meta t.Value
          (t.Nodes ++ [Node.mk none "CRIU dump statistics"
            [Node.mk none ("Freezing Time: " ++ toString d.GetFreezingTime ++ " us") [],
             Node.mk none ("Frozen Time: " ++ toString d.GetFrozenTime ++ " us") [],
             Node.mk none ("Memdump Time: " ++ toString d.GetMemdumpTime ++ " us") [],
             Node.mk none ("Memwrite Time: " ++ toString d.GetMemwriteTime ++ " us") [],
             Node.mk none ("Pages Scanned: " ++ toString d.GetPagesScanned ++ " us") [],
             Node.mk none ("Pages Written: " ++ toString d.GetPagesWritten ++ " us") []]]) := by
  simp only [addDumpStatsToTree, AddBranch_root, AddBranch_last, Node.Meta_mk, Node.Value_mk,
    Node.Nodes_mk, List.nil_append, List.cons_append, List.append_assoc]

theorem mirrorList_eq_map (cs : List PsTree) : mirrorList cs = cs.map mirror := by
  induction cs with
  | nil => rfl
  | cons c cs ih => simp [mirrorList, ih]

mutual
/-- The closure `processNodes` appends the mirror of the process to the children
of the node it is given. -/
theorem processNodes_eq (p : PsTree) (st : Node) (h : Handle) (x : Node)
    (hx : getAt h st = some x) :
    processNodes st h p = updateAt (Node.push (mirror p)) h st := by
  match p with
  | PsTree.mk pid comm children =>
    cases x with
    | mk xm xv xns =>
      have hk : childCount st h = xns.length := childCount_of_getAt st h _ hx
      have h1 : getAt (h ++ [xns.length])
          (updateAt (Node.push (Node.mk (some pid) comm [])) h st)
          = some (Node.mk (some pid) comm []) := by
        rw [getAt_append, getAt_updateAt _ h st _ hx]
        simp [Node.push, getAt_last]
      simp only [processNodes, AddMetaBranch, hk]
      rw [processNodesLoop_eq children _ _ _ h1, updateAt_append, updateAt_updateAt]
      apply updateAt_congr _ _ h st _ hx
      simp [Node.push, updateAt_last, mirror]
/-- The loop of `processNodes` appends the mirrors of the processes, in order. -/
theorem processNodesLoop_eq (cs : List PsTree) (st : Node) (h : Handle) (x : Node)
    (hx : getAt h st = some x) :
    processNodesLoop st h cs
      = updateAt (fun y => Node.mk y.Meta y.Value (y.Nodes ++ mirrorList cs)) h st := by
  match cs with
  | [] =>
    simp only [processNodesLoop, mirrorList, List.append_nil]
    exact (updateAt_self _ h st x hx (by simp)).symm
  | c :: rest =>
    simp only [processNodesLoop, mirrorList]
    rw [processNodes_eq c st h x hx,
      processNodesLoop_eq rest _ h _ (getAt_updateAt _ h st x hx), updateAt_updateAt]
    apply updateAt_congr _ _ h st _ hx
    simp [Node.push]
end

/-- The tree after `addPsTreeToTree`, written out. -/
theorem addPsTreeToTree_eq (t : Node) (p : PsTree) :
    addPsTreeToTree t p
      = Node.mk t.Meta t.Value (t.Nodes ++ [Node.mk none "Process tree" [mirror p]]) := by
  simp only [addPsTreeToTree, AddBranch_root]
  rw [processNodes_eq p _ [t.Nodes.length] (Node.mk none "Process tree" [])
    (by rw [getAt_last]; rfl)]
  rw [updateAt_last]
  simp [Node.push]

/-! ## The root tree builder: shape of the result -/

/-- Labels that differ within their first two characters are different. -/
theorem label_ne (p q a b : String) (hp : 2 ≤ p.data.length) (hq : 2 ≤ q.data.length)
    (h : p.data.take 2 ≠ q.data.take 2) : p ++ a ≠ q ++ b := by
  intro e
  apply h
  have e2 := congrArg (fun s => s.data.take 2) e
  simp only [String.data_append] at e2
  rwa [List.take_append_of_le_length hp, List.take_append_of_le_length hq] at e2

/-- A label with a prefix differs from a label with other first two characters. -/
theorem label_ne_lit (p q a : String) (hp : 2 ≤ p.data.length) (hq : 2 ≤ q.data.length)
    (h : p.data.take 2 ≠ q.data.take 2) : p ++ a ≠ q := by
  have := label_ne p q a "" hp hq h
  simpa using this

/-- The tree of `buildTree`, written out. -/
theorem buildTree_tree (bts : Int → String) (ci : containerInfo) (cfg : ContainerConfig)
    (sz : archiveSizes) :
    (buildTree bts ci cfg sz).2
      = Node.mk none (if ci.Name = "" then "Container" else ci.Name)
          ([Node.mk none ("Image: " ++ cfg.RootfsImageName) [],
            Node.mk none ("ID: " ++ cfg.ID) [],
            Node.mk none ("Runtime: " ++ cfg.OCIRuntime) [],
            Node.mk none ("Created: " ++ ci.Created) [],
            Node.mk none ("Engine: " ++ ci.Engine) []]
           ++ (if ci.IP ≠ "" then [Node.mk none ("IP: " ++ ci.IP) []] else [])
           ++ (if ci.MAC ≠ "" then [Node.mk none ("MAC: " ++ ci.MAC) []] else [])
           ++ [Node.mk none ("Checkpoint Size: " ++ bts sz.checkpointSize) []]
           ++ (if sz.rootFsDiffTarSize ≠ 0 then
                [Node.mk none ("Root Fs Diff Size: " ++ bts sz.rootFsDiffTarSize) []]
               else [])) := by
  simp only [buildTree, AddBranch_root, NewWithRoot]
  by_cases hn : ci.Name = "" <;> by_cases hi : ci.IP = "" <;> by_cases hm : ci.MAC = "" <;>
    by_cases hd : sz.rootFsDiffTarSize = 0 <;> simp [hn, hi, hm, hd]

/-- C1: the root label of the tree returned by `buildTree` is "Container" when
the name of the record is empty and the name of the record otherwise; it is
never empty. -/
theorem buildTree_root_label (bts : Int → String) (ci : containerInfo) (cfg : ContainerConfig)
    (sz : archiveSizes) :
    (buildTree bts ci cfg sz).2.Value = (if ci.Name = "" then "Container" else ci.Name)
      ∧ (buildTree bts ci cfg sz).2.Value ≠ "" := by
  rw [buildTree_tree]
  by_cases hn : ci.Name = "" <;> simp +decide [hn]

/-- C2: the first five children of the root returned by `buildTree` are the
leaves for image, ID, runtime, creation time and engine, in this order, and
every child of the root is a leaf. -/
theorem buildTree_fixed_branches (bts : Int → String) (ci : containerInfo)
    (cfg : ContainerConfig) (sz : archiveSizes) :
    (buildTree bts ci cfg sz).2.Nodes.take 5
        = [Node.mk none ("Image: " ++ cfg.RootfsImageName) [],
           Node.mk none ("ID: " ++ cfg.ID) [],
           Node.mk none ("Runtime: " ++ cfg.OCIRuntime) [],
           Node.mk none ("Created: " ++ ci.Created) [],
           Node.mk none ("Engine: " ++ ci.Engine) []]
      ∧ ∀ c ∈ (buildTree bts ci cfg sz).2.Nodes, c.Nodes = [] := by
  rw [buildTree_tree]
  constructor
  · simp
  · by_cases hi : ci.IP = "" <;> by_cases hm : ci.MAC = "" <;>
      by_cases hd : sz.rootFsDiffTarSize = 0 <;> simp [hi, hm, hd]

/-- C3: the root has a child labelled "IP: <ip>" exactly when the IP field is
non-empty, and a child labelled "MAC: <mac>" exactly when the MAC field is
non-empty; each occurs once when present; the engine branch is child 4, the IP
branch (when present) child 5, the MAC branch (when present) the next child, and
the checkpoint-size branch the child after them. -/
theorem buildTree_ip_mac (bts : Int → String) (ci : containerInfo) (cfg : ContainerConfig)
    (sz : archiveSizes) :
    ((∃ c ∈ (buildTree bts ci cfg sz).2.Nodes, c.Value = "IP: " ++ ci.IP) ↔ ci.IP ≠ "")
      ∧ ((∃ c ∈ (buildTree bts ci cfg sz).2.Nodes, c.Value = "MAC: " ++ ci.MAC)
          ↔ ci.MAC ≠ "")
      ∧ (buildTree bts ci cfg sz).2.Nodes.countP (fun c => c.Value = "IP: " ++ ci.IP)
          = (if ci.IP ≠ "" then 1 else 0)
      ∧ (buildTree bts ci cfg sz).2.Nodes.countP (fun c => c.Value = "MAC: " ++ ci.MAC)
          = (if ci.MAC ≠ "" then 1 else 0)
      ∧ (buildTree bts ci cfg sz).2.Nodes[4]? = some (Node.mk none ("Engine: " ++ ci.Engine) [])
      ∧ (if ci.IP ≠ "" then
          (buildTree bts ci cfg sz).2.Nodes[5]? = some (Node.mk none ("IP: " ++ ci.IP) [])
         else True)
      ∧ (if ci.MAC ≠ "" then
          (buildTree bts ci cfg sz).2.Nodes[5 + (if ci.IP ≠ "" then 1 else 0)]?
            = some (Node.mk none ("MAC: " ++ ci.MAC) [])
         else True)
      ∧ (buildTree bts ci cfg sz).2.Nodes[5 + (if ci.IP ≠ "" then 1 else 0)
            + (if ci.MAC ≠ "" then 1 else 0)]?
          = some (Node.mk none ("Checkpoint Size: " ++ bts sz.checkpointSize) []) := by
  rw [buildTree_tree]
  by_cases hi : ci.IP = "" <;> by_cases hm : ci.MAC = "" <;>
    by_cases hd : sz.rootFsDiffTarSize = 0 <;>
    simp +decide [hi, hm, hd, label_ne, label_ne_lit, List.countP_cons]

/-- C4: the root has exactly one child labelled "Checkpoint Size: ..."; it has
a child labelled "Root Fs Diff Size: ..." exactly when that size is non-zero,
and then this child is the last one, right after the checkpoint-size branch;
the root has 6 + [IP non-empty] + [MAC non-empty] + [diff size non-zero]
children. -/
theorem buildTree_sizes (bts : Int → String) (ci : containerInfo) (cfg : ContainerConfig)
    (sz : archiveSizes) :
    (buildTree bts ci cfg sz).2.Nodes.countP
          (fun c => c.Value = "Checkpoint Size: " ++ bts sz.checkpointSize) = 1
      ∧ ((∃ c ∈ (buildTree bts ci cfg sz).2.Nodes,
            c.Value = "Root Fs Diff Size: " ++ bts sz.rootFsDiffTarSize)
          ↔ sz.rootFsDiffTarSize ≠ 0)
      ∧ (if sz.rootFsDiffTarSize ≠ 0 then
          (buildTree bts ci cfg sz).2.Nodes.getLast?
              = some (Node.mk none ("Root Fs Diff Size: " ++ bts sz.rootFsDiffTarSize) [])
            ∧ (buildTree bts ci cfg sz).2.Nodes[(buildTree bts ci cfg sz).2.Nodes.length - 2]?
              = some (Node.mk none ("Checkpoint Size: " ++ bts sz.checkpointSize) [])
         else
          (buildTree bts ci cfg sz).2.Nodes.getLast?
              = some (Node.mk none ("Checkpoint Size: " ++ bts sz.checkpointSize) []))
      ∧ (buildTree bts ci cfg sz).2.Nodes.length
          = 6 + (if ci.IP ≠ "" then 1 else 0) + (if ci.MAC ≠ "" then 1 else 0)
              + (if sz.rootFsDiffTarSize ≠ 0 then 1 else 0) := by
  rw [buildTree_tree]
  by_cases hi : ci.IP = "" <;> by_cases hm : ci.MAC = "" <;>
    by_cases hd : sz.rootFsDiffTarSize = 0 <;>
    simp +decide [hi, hm, hd, label_ne, List.countP_cons]

/-! ## The appenders: contracts -/

/-- C5: `addMountsToTree` adds one branch "Overview of Mounts" with as many
children as there are mount entries; child i is labelled by the destination of
entry i and has the two leaves type and source; with no entry the branch is
added without children; the entry /data, bind, /host/data gives the child
"Destination: /data" with leaves "Type: bind" and "Source: /host/data". -/
theorem addMountsToTree_overview (t : Node) (spec : Spec) :
    (∃ b, (addMountsToTree t spec).Nodes = t.Nodes ++ [b]
        ∧ b.Meta = none ∧ b.Value = "Overview of Mounts"
        ∧ b.Nodes.length = spec.Mounts.length
        ∧ ∀ i : Nat, b.Nodes[i]? = (spec.Mounts[i]?).map (fun (data : Mount) =>
            Node.mk none ("Destination: " ++ data.Destination)
              [Node.mk none ("Type: " ++ data.Type_) [],
               Node.mk none ("Source: " ++ data.Source) []]))
      ∧ (addMountsToTree t (Spec.mk [])).Nodes
          = t.Nodes ++ [Node.mk none "Overview of Mounts" []]
      ∧ (addMountsToTree t (Spec.mk [Mount.mk "/data" "bind" "/host/data"])).Nodes
          = t.Nodes ++ [Node.mk none "Overview of Mounts"
              [Node.mk none "Destination: /data"
                [Node.mk none "Type: bind" [], Node.mk none "Source: /host/data" []]]] := by
  refine ⟨⟨Node.mk none "Overview of Mounts" (spec.Mounts.map mountBranch), ?_, rfl, rfl,
    ?_, ?_⟩, ?_, ?_⟩
  · rw [addMountsToTree_eq]; rfl
  · simp
  · intro i
    simp only [Node.Nodes_mk, List.getElem?_map]
    rfl
  · rw [addMountsToTree_eq]; rfl
  · rw [addMountsToTree_eq]
    simp only [Node.Nodes_mk, List.map_cons, List.map_nil, mountBranch]
    have e1 : "Destination: " ++ "/data" = "Destination: /data" := by decide
    have e2 : "Type: " ++ "bind" = "Type: bind" := by decide
    have e3 : "Source: " ++ "/host/data" = "Source: /host/data" := by decide
    rw [e1, e2, e3]

/-- C6: `addDumpStatsToTree` adds one branch "CRIU dump statistics" with six
leaves in the order freezing time, frozen time, memdump time, memwrite time,
pages scanned, pages written, each "<label>: <decimal value> us", the page
counters included; a record of zero counters gives six leaves with value 0. -/
theorem addDumpStatsToTree_six_leaves (t : Node) (d : DumpStatsEntry) :
    (addDumpStatsToTree t d).Nodes
        = t.Nodes ++ [Node.mk none "CRIU dump statistics"
            [Node.mk none ("Freezing Time: " ++ toString d.GetFreezingTime ++ " us") [],
             Node.mk none ("Frozen Time: " ++ toString d.GetFrozenTime ++ " us") [],
             Node.mk none ("Memdump Time: " ++ toString d.GetMemdumpTime ++ " us") [],
             Node.mk none ("Memwrite Time: " ++ toString d.GetMemwriteTime ++ " us") [],
             Node.mk none ("Pages Scanned: " ++ toString d.GetPagesScanned ++ " us") [],
             Node.mk none ("Pages Written: " ++ toString d.GetPagesWritten ++ " us") []]]
      ∧ (addDumpStatsToTree t
            (DumpStatsEntry.mk (some 0) (some 0) (some 0) (some 0) (some 0) (some 0))).Nodes
        = t.Nodes ++ [Node.mk none "CRIU dump statistics"
            [Node.mk none "Freezing Time: 0 us" [],
             Node.mk none "Frozen Time: 0 us" [],
             Node.mk none "Memdump Time: 0 us" [],
             Node.mk none "Memwrite Time: 0 us" [],
             Node.mk none "Pages Scanned: 0 us" [],
             Node.mk none "Pages Written: 0 us" []]] := by
  constructor
  · rw [addDumpStatsToTree_eq]; rfl
  · rw [addDumpStatsToTree_eq]
    have e1 : "Freezing Time: " ++ toString (0 : Nat) ++ " us" = "Freezing Time: 0 us" := by
      decide
    have e2 : "Frozen Time: " ++ toString (0 : Nat) ++ " us" = "Frozen Time: 0 us" := by decide
    have e3 : "Memdump Time: " ++ toString (0 : Nat) ++ " us" = "Memdump Time: 0 us" := by
      decide
    have e4 : "Memwrite Time: " ++ toString (0 : Nat) ++ " us" = "Memwrite Time: 0 us" := by
      decide
    have e5 : "Pages Scanned: " ++ toString (0 : Nat) ++ " us" = "Pages Scanned: 0 us" := by
      decide
    have e6 : "Pages Written: " ++ toString (0 : Nat) ++ " us" = "Pages Written: 0 us" := by
      decide
    simp only [Node.Nodes_mk, DumpStatsEntry.GetFreezingTime, DumpStatsEntry.GetFrozenTime,
      DumpStatsEntry.GetMemdumpTime, DumpStatsEntry.GetMemwriteTime,
      DumpStatsEntry.GetPagesScanned, DumpStatsEntry.GetPagesWritten, Option.getD_some,
      e1, e2, e3, e4, e5, e6]

mutual
theorem mirror_preorder (p : PsTree) :
    (mirror p).preorder = p.preorder.map (fun x => (some x.1, x.2)) := by
  match p with
  | PsTree.mk pid comm children =>
    simp [mirror, Node.preorder, PsTree.preorder, mirrorList_preorder children]
theorem mirrorList_preorder (cs : List PsTree) :
    Node.preorderList (mirrorList cs)
      = (PsTree.preorderList cs).map (fun x => (some x.1, x.2)) := by
  match cs with
  | [] => rfl
  | c :: rest =>
    simp [mirrorList, Node.preorderList, PsTree.preorderList, mirror_preorder c,
      mirrorList_preorder rest]
end

/-- C7: `addPsTreeToTree` adds one branch "Process tree" whose only child is
the mirror of the process hierarchy: the meta node with the identifier and
command name of the process, over the mirrors of its child processes in the
same order; the pre-order traversals agree; the hierarchy 1 "init" over 5 "sh"
gives "Process tree", (1, "init"), (5, "sh"). -/
theorem addPsTreeToTree_mirror (t : Node) (p : PsTree) :
    (addPsTreeToTree t p).Nodes = t.Nodes ++ [Node.mk none "Process tree" [mirror p]]
      ∧ (∀ n : PsTree, mirror n = Node.mk (some n.PId) n.Comm (n.Children.map mirror))
      ∧ (mirror p).preorder = p.preorder.map (fun x => (some x.1, x.2))
      ∧ (addPsTreeToTree t (PsTree.mk 1 "init" [PsTree.mk 5 "sh" []])).Nodes
          = t.Nodes ++ [Node.mk none "Process tree"
              [Node.mk (some 1) "init" [Node.mk (some 5) "sh" []]]] := by
  refine ⟨?_, ?_, mirror_preorder p, ?_⟩
  · rw [addPsTreeToTree_eq]; rfl
  · intro n
    cases n with
    | mk pid comm cs =>
      simp [mirror, mirrorList_eq_map, PsTree.PId, PsTree.Comm, PsTree.Children]
  · rw [addPsTreeToTree_eq]; rfl

/-- C9: each appender leaves the label and the meta value of the root and its
children as they are, in order, and adds exactly one child, the last one: the
branch of the appender. -/
theorem appenders_frame (t : Node) (spec : Spec) (d : DumpStatsEntry) (p : PsTree) :
    ((addMountsToTree t spec).Value = t.Value ∧ (addMountsToTree t spec).Meta = t.Meta
        ∧ (addMountsToTree t spec).Nodes.length = t.Nodes.length + 1
        ∧ (addMountsToTree t spec).Nodes.take t.Nodes.length = t.Nodes
        ∧ (addMountsToTree t spec).Nodes.getLast?.map Node.Value = some "Overview of Mounts")
      ∧ ((addDumpStatsToTree t d).Value = t.Value ∧ (addDumpStatsToTree t d).Meta = t.Meta
        ∧ (addDumpStatsToTree t d).Nodes.length = t.Nodes.length + 1
        ∧ (addDumpStatsToTree t d).Nodes.take t.Nodes.length = t.Nodes
        ∧ (addDumpStatsToTree t d).Nodes.getLast?.map Node.Value = some "CRIU dump statistics")
      ∧ ((addPsTreeToTree t p).Value = t.Value ∧ (addPsTreeToTree t p).Meta = t.Meta
        ∧ (addPsTreeToTree t p).Nodes.length = t.Nodes.length + 1
        ∧ (addPsTreeToTree t p).Nodes.take t.Nodes.length = t.Nodes
        ∧ (addPsTreeToTree t p).Nodes.getLast?.map Node.Value = some "Process tree") := by
  rw [addMountsToTree_eq, addDumpStatsToTree_eq, addPsTreeToTree_eq]
  simp

/-! ## Meta values -/

theorem metaCountList_append (as bs : List Node) :
    Node.metaCountList (as ++ bs) = Node.metaCountList as + Node.metaCountList bs := by
  induction as with
  | nil => simp [Node.metaCountList]
  | cons a as ih => simp [Node.metaCountList, ih, Nat.add_assoc]

theorem metaCount_le_of_mem (c : Node) (ns : List Node) (h : c ∈ ns) :
    c.metaCount ≤ Node.metaCountList ns := by
  induction ns with
  | nil => simp at h
  | cons a ns ih =>
    rcases List.mem_cons.mp h with e | e
    · subst e; simp [Node.metaCountList]
    · have := ih e
      simp only [Node.metaCountList]
      omega

/-- A tree that counts no meta value has none at any of its nodes. -/
theorem meta_none_of_metaCount_zero (p : Handle) (x n : Node) (hx : x.metaCount = 0)
    (h : getAt p x = some n) : n.Meta = none := by
  induction p generalizing x with
  | nil =>
    simp at h
    subst h
    cases x with
    | mk m v ns =>
      cases m with
      | none => rfl
      | some k => simp [Node.metaCount] at hx
  | cons i p ih =>
    cases hc : x.Nodes[i]? with
    | none => simp [getAt, hc] at h
    | some c =>
      rw [getAt_cons i p x c hc] at h
      have hmem : c ∈ x.Nodes := List.getElem?_mem hc
      have hle := metaCount_le_of_mem c x.Nodes hmem
      have hz : Node.metaCountList x.Nodes = 0 := by
        cases x with
        | mk m v ns => simp only [Node.metaCount] at hx; simp only [Node.Nodes_mk]; omega
      exact ih c (by omega) h

mutual
theorem mirror_metaCount (p : PsTree) : (mirror p).metaCount = p.size := by
  match p with
  | PsTree.mk pid comm children =>
    simp [mirror, Node.metaCount, PsTree.size, mirrorList_metaCount children]
theorem mirrorList_metaCount (cs : List PsTree) :
    Node.metaCountList (mirrorList cs) = PsTree.sizeList cs := by
  match cs with
  | [] => rfl
  | c :: rest =>
    simp [mirrorList, Node.metaCountList, PsTree.sizeList, mirror_metaCount c,
      mirrorList_metaCount rest]
end

mutual
/-- Every node of a mirror carries a meta value. -/
theorem mirror_meta (p : PsTree) (q : Handle) (n : Node) (h : getAt q (mirror p) = some n) :
    n.Meta ≠ none := by
  match p, q with
  | PsTree.mk pid comm children, [] =>
    simp [mirror] at h
    subst h
    simp
  | PsTree.mk pid comm children, i :: r =>
    cases hc : (mirror (PsTree.mk pid comm children)).Nodes[i]? with
    | none => simp [getAt, hc] at h
    | some c =>
      rw [getAt_cons i r _ c hc] at h
      exact mirrorList_meta children i c r n (by simpa [mirror] using hc) h
theorem mirrorList_meta (cs : List PsTree) (i : Nat) (c : Node) (q : Handle) (n : Node)
    (hc : (mirrorList cs)[i]? = some c) (h : getAt q c = some n) : n.Meta ≠ none := by
  match cs, i with
  | [], _ => simp [mirrorList] at hc
  | a :: rest, 0 =>
    simp [mirrorList] at hc
    subst hc
    exact mirror_meta a q n h
  | a :: rest, j + 1 =>
    simp [mirrorList] at hc
    exact mirrorList_meta rest j c q n hc h
end

theorem mountBranch_metaCount (ms : List Mount) :
    Node.metaCountList (ms.map mountBranch) = 0 := by
  induction ms with
  | nil => rfl
  | cons d ms ih => simp [Node.metaCountList, Node.metaCount, mountBranch, ih]

theorem metaCount_eq (t : Node) :
    t.metaCount = (if t.Meta.isSome then 1 else 0) + Node.metaCountList t.Nodes := by
  cases t; rfl

theorem buildTree_metaCount (bts : Int → String) (ci : containerInfo) (cfg : ContainerConfig)
    (sz : archiveSizes) : (buildTree bts ci cfg sz).2.metaCount = 0 := by
  rw [buildTree_tree]
  by_cases hi : ci.IP = "" <;> by_cases hm : ci.MAC = "" <;>
    by_cases hd : sz.rootFsDiffTarSize = 0 <;>
    simp [hi, hm, hd, Node.metaCount, Node.metaCountList]

theorem addMountsToTree_metaCount (t : Node) (spec : Spec) :
    (addMountsToTree t spec).metaCount = t.metaCount := by
  rw [addMountsToTree_eq, metaCount_eq, metaCount_eq t]
  simp [metaCountList_append, Node.metaCountList, Node.metaCount, mountBranch_metaCount]

theorem addDumpStatsToTree_metaCount (t : Node) (d : DumpStatsEntry) :
    (addDumpStatsToTree t d).metaCount = t.metaCount := by
  rw [addDumpStatsToTree_eq, metaCount_eq, metaCount_eq t]
  simp [metaCountList_append, Node.metaCountList, Node.metaCount]

theorem addPsTreeToTree_metaCount (t : Node) (p : PsTree) :
    (addPsTreeToTree t p).metaCount = t.metaCount + p.size := by
  rw [addPsTreeToTree_eq, metaCount_eq, metaCount_eq t]
  simp [metaCountList_append, Node.metaCountList, Node.metaCount, mirror_metaCount,
    Nat.add_assoc]

/-- A node of a tree with a new last child is the root, a node of the tree
before, or a node of the new child. -/
theorem getAt_push_cases (t b : Node) (p : Handle) (n : Node)
    (h : getAt p (Node.mk t.Meta t.Value (t.Nodes ++ [b])) = some n) :
    (p = [] ∧ n.Meta = t.Meta)
      ∨ (∃ i q, p = i :: q ∧ i < t.Nodes.length ∧ getAt (i :: q) t = some n)
      ∨ (∃ q, p = t.Nodes.length :: q ∧ getAt q b = some n) := by
  cases p with
  | nil =>
    left
    simp at h
    subst h
    simp
  | cons i q =>
    right
    rcases Nat.lt_trichotomy i t.Nodes.length with hlt | heq | hgt
    · left
      refine ⟨i, q, rfl, hlt, ?_⟩
      have e : (t.Nodes ++ [b])[i]? = t.Nodes[i]? := List.getElem?_append_left hlt
      simp only [getAt, Node.Nodes_mk, e] at h ⊢
      exact h
    · right
      subst heq
      refine ⟨q, rfl, ?_⟩
      rw [getAt_last] at h
      exact h
    · exfalso
      have e : (t.Nodes ++ [b])[i]? = none := by
        apply List.getElem?_eq_none
        simp
        omega
      simp [getAt, e] at h

/-- C8: in the tree of `buildTree` followed by any of the appenders enabled, in
the order mounts, statistics, process tree, a node carries a meta value exactly
when the process tree was appended and the node lies strictly below the
"Process tree" branch, the last child of the root; the number of nodes with a
meta value is the number of processes of the hierarchy. -/
theorem meta_only_below_process_tree (bts : Int → String) (ci : containerInfo)
    (cfg : ContainerConfig) (sz : archiveSizes) (spec : Spec) (d : DumpStatsEntry)
    (ps : PsTree) (bm bs bp : Bool) :
    let t0 := (buildTree bts ci cfg sz).2
    let t1 := if bm then addMountsToTree t0 spec else t0
    let t2 := if bs then addDumpStatsToTree t1 d else t1
    let t3 := if bp then addPsTreeToTree t2 ps else t2
    (∀ p n, getAt p t3 = some n →
        (n.Meta ≠ none ↔ (bp = true ∧ ∃ q, q ≠ [] ∧ p = (t3.Nodes.length - 1) :: q)))
      ∧ t3.metaCount = (if bp then ps.size else 0)
      ∧ (if bp then t3.Nodes.getLast? = some (Node.mk none "Process tree" [mirror ps])
         else True) := by
  intro t0 t1 t2 t3
  have h0 : t0.metaCount = 0 := buildTree_metaCount bts ci cfg sz
  have h1 : t1.metaCount = 0 := by
    cases bm
    · exact h0
    · simp only [t1, if_true]
      rw [addMountsToTree_metaCount]; exact h0
  have h2 : t2.metaCount = 0 := by
    cases bs
    · exact h1
    · simp only [t2, if_true]
      rw [addDumpStatsToTree_metaCount]; exact h1
  cases bp with
  | false =>
    have e3 : t3 = t2 := rfl
    rw [e3]
    refine ⟨?_, by simpa using h2, by simp⟩
    intro p n hn
    have := meta_none_of_metaCount_zero p t2 n h2 hn
    simp [this]
  | true =>
    have e3 : t3 = Node.mk t2.Meta t2.Value
        (t2.Nodes ++ [Node.mk none "Process tree" [mirror ps]]) := by
      simp only [t3, if_true]
      exact addPsTreeToTree_eq t2 ps
    rw [e3]
    refine ⟨?_, ?_, by simp⟩
    · intro p n hn
      simp only [Node.Nodes_mk, List.length_append, List.length_singleton,
        Nat.add_sub_cancel, true_and]
      rcases getAt_push_cases t2 _ p n hn with
        ⟨hp, hm⟩ | ⟨i, q, hp, hi, hq⟩ | ⟨q, hp, hq⟩
      · have hroot : t2.Meta = none := meta_none_of_metaCount_zero [] t2 t2 h2 rfl
        subst hp
        simp [hm, hroot]
      · have hnone := meta_none_of_metaCount_zero (i :: q) t2 n h2 hq
        subst hp
        simp only [hnone, ne_eq, not_true_eq_false, false_iff, not_exists, not_and]
        intro r _ e
        have : i = t2.Nodes.length := (List.cons.inj e).1
        omega
      · subst hp
        cases q with
        | nil =>
          simp at hq
          subst hq
          simp
        | cons j r =>
          cases j with
          | zero =>
            rw [getAt_cons 0 r (Node.mk none "Process tree" [mirror ps]) (mirror ps) rfl] at hq
            have := mirror_meta ps r n hq
            simp [this]
          | succ j => simp [getAt] at hq
    · rw [← e3]
      simp only [t3, if_true]
      rw [addPsTreeToTree_metaCount, h2]
      simp

/-! ## The orchestrator: contracts -/

/-- No branch of `buildTree` has the label of an appender branch. -/
theorem buildTree_labels (bts : Int → String) (ci : containerInfo) (cfg : ContainerConfig)
    (sz : archiveSizes) :
    ∀ c ∈ (buildTree bts ci cfg sz).2.Nodes,
      c.Value ≠ "Overview of Mounts" ∧ c.Value ≠ "CRIU dump statistics"
        ∧ c.Value ≠ "Process tree" := by
  rw [buildTree_tree]
  by_cases hi : ci.IP = "" <;> by_cases hm : ci.MAC = "" <;>
    by_cases hd : sz.rootFsDiffTarSize = 0 <;>
    simp +decide [hi, hm, hd, label_ne_lit]

/-- The tree of a task whose collaborators succeed. -/
theorem renderTreeViewTree_ok (env : Collaborators) (opts : Toggles) (task : task)
    (cfg : ContainerConfig) (spec : Spec) (ci : containerInfo)
    (sz : archiveSizes) (d : DumpStatsEntry) (ps : PsTree)
    (hcfg : env.ReadContainerCheckpointConfigDump task.outputDir = Except.ok cfg)
    (hspec : env.ReadContainerCheckpointSpecDump task.outputDir = Except.ok spec)
    (hci : env.getContainerInfo task.outputDir spec cfg = Except.ok ci)
    (hsz : env.getArchiveSizes task.checkpointFilePath = Except.ok sz)
    (hd : opts.stats = true → env.GetDumpStats task.outputDir = Except.ok d)
    (hps : opts.psTree = true → env.ExplorePs task.outputDir = Except.ok ps) :
    renderTreeViewTree env opts task
      = Except.ok
          (let t0 := (buildTree env.ByteToString ci cfg sz).2
           let t1 := if opts.mounts then addMountsToTree t0 spec else t0
           let t2 := if opts.stats then addDumpStatsToTree t1 d else t1
           if opts.psTree then addPsTreeToTree t2 ps else t2) := by
  simp only [renderTreeViewTree, hcfg, hspec, hci, hsz]
  cases hs : opts.stats <;> cases hp : opts.psTree <;> simp_all

/-- C10: when the collaborators a task needs succeed, `renderTreeView` prints
the tree whose root children are the branches of `buildTree` followed by the
branches "Overview of Mounts", "CRIU dump statistics" and "Process tree", in
this order, each present exactly when its toggle is enabled. -/
theorem renderTreeView_branches (env : Collaborators) (opts : Toggles) (task : task)
    (stdout : List String) (cfg : ContainerConfig) (spec : Spec) (ci : containerInfo)
    (sz : archiveSizes) (d : DumpStatsEntry) (ps : PsTree)
    (hcfg : env.ReadContainerCheckpointConfigDump task.outputDir = Except.ok cfg)
    (hspec : env.ReadContainerCheckpointSpecDump task.outputDir = Except.ok spec)
    (hci : env.getContainerInfo task.outputDir spec cfg = Except.ok ci)
    (hsz : env.getArchiveSizes task.checkpointFilePath = Except.ok sz)
    (hd : opts.stats = true → env.GetDumpStats task.outputDir = Except.ok d)
    (hps : opts.psTree = true → env.ExplorePs task.outputDir = Except.ok ps) :
    ∃ tree bm bs bp,
      renderTreeViewTree env opts task = Except.ok tree
      ∧ renderTreeView env opts [task] stdout
          = (stdout ++ ["\nDisplaying container checkpoint tree view from "
                ++ task.checkpointFilePath ++ "\n\n",
              env.treeString tree ++ "\n"], none)
      ∧ bm.Value = "Overview of Mounts" ∧ bs.Value = "CRIU dump statistics"
      ∧ bp.Value = "Process tree"
      ∧ tree.Nodes = (buildTree env.ByteToString ci cfg sz).2.Nodes
          ++ (if opts.mounts then [bm] else [])
          ++ (if opts.stats then [bs] else [])
          ++ (if opts.psTree then [bp] else [])
      ∧ ((∃ c ∈ tree.Nodes, c.Value = "Overview of Mounts") ↔ opts.mounts = true)
      ∧ ((∃ c ∈ tree.Nodes, c.Value = "CRIU dump statistics") ↔ opts.stats = true)
      ∧ ((∃ c ∈ tree.Nodes, c.Value = "Process tree") ↔ opts.psTree = true) := by
  have hl := buildTree_labels env.ByteToString ci cfg sz
  have key : ∀ (l : String) (extra : List Node),
      (∀ c ∈ (buildTree env.ByteToString ci cfg sz).2.Nodes, c.Value ≠ l) →
      ((∃ c ∈ (buildTree env.ByteToString ci cfg sz).2.Nodes ++ extra, c.Value = l)
        ↔ ∃ c ∈ extra, c.Value = l) := by
    intro l extra hne
    constructor
    · rintro ⟨c, hc, hv⟩
      rcases List.mem_append.mp hc with h | h
      · exact absurd hv (hne c h)
      · exact ⟨c, h, hv⟩
    · rintro ⟨c, hc, hv⟩
      exact ⟨c, List.mem_append.mpr (Or.inr hc), hv⟩
  have hok :=
    renderTreeViewTree_ok env opts task cfg spec ci sz d ps hcfg hspec hci hsz hd hps
  refine ⟨_, Node.mk none "Overview of Mounts" (spec.Mounts.map mountBranch),
    Node.mk none "CRIU dump statistics"
      [Node.mk none ("Freezing Time: " ++ toString d.GetFreezingTime ++ " us") [],
       Node.mk none ("Frozen Time: " ++ toString d.GetFrozenTime ++ " us") [],
       Node.mk none ("Memdump Time: " ++ toString d.GetMemdumpTime ++ " us") [],
       Node.mk none ("Memwrite Time: " ++ toString d.GetMemwriteTime ++ " us") [],
       Node.mk none ("Pages Scanned: " ++ toString d.GetPagesScanned ++ " us") [],
       Node.mk none ("Pages Written: " ++ toString d.GetPagesWritten ++ " us") []],
    Node.mk none "Process tree" [mirror ps], hok, ?_, rfl, rfl, rfl, ?_⟩
  · simp only [renderTreeView, hok]
  · have hN : ∀ (m s p : Bool),
        (let t0 := (buildTree env.ByteToString ci cfg sz).2
         let t1 := if m then addMountsToTree t0 spec else t0
         let t2 := if s then addDumpStatsToTree t1 d else t1
         if p then addPsTreeToTree t2 ps else t2).Nodes
        = (buildTree env.ByteToString ci cfg sz).2.Nodes
          ++ ((if m then [Node.mk none "Overview of Mounts" (spec.Mounts.map mountBranch)]
                else [])
            ++ (if s then [Node.mk none "CRIU dump statistics"
              [Node.mk none ("Freezing Time: " ++ toString d.GetFreezingTime ++ " us") [],
               Node.mk none ("Frozen Time: " ++ toString d.GetFrozenTime ++ " us") [],
               Node.mk none ("Memdump Time: " ++ toString d.GetMemdumpTime ++ " us") [],
               Node.mk none ("Memwrite Time: " ++ toString d.GetMemwriteTime ++ " us") [],
               Node.mk none ("Pages Scanned: " ++ toString d.GetPagesScanned ++ " us") [],
               Node.mk none ("Pages Written: " ++ toString d.GetPagesWritten ++ " us") []]]
                else [])
            ++ (if p then [Node.mk none "Process tree" [mirror ps]] else [])) := by
      intro m s p
      cases m <;> cases s <;> cases p <;>
        simp [addMountsToTree_eq, addDumpStatsToTree_eq, addPsTreeToTree_eq]
    rw [hN opts.mounts opts.stats opts.psTree]
    refine ⟨by simp only [List.append_assoc], ?_, ?_, ?_⟩
    · rw [key _ _ (fun c hc => (hl c hc).1)]
      cases opts.mounts <;> cases opts.stats <;> cases opts.psTree <;> simp +decide
    · rw [key _ _ (fun c hc => (hl c hc).2.1)]
      cases opts.mounts <;> cases opts.stats <;> cases opts.psTree <;> simp +decide
    · rw [key _ _ (fun c hc => (hl c hc).2.2)]
      cases opts.mounts <;> cases opts.stats <;> cases opts.psTree <;> simp +decide

/-- The sample run satisfies the conditions of C10 with all three toggles
enabled. -/
theorem renderTreeView_branches_witness :
    ∃ tree bm bs bp,
      renderTreeViewTree sampleEnv (Toggles.mk true true true) sampleTask = Except.ok tree
      ∧ renderTreeView sampleEnv (Toggles.mk true true true) [sampleTask] []
          = ([] ++ ["\nDisplaying container checkpoint tree view from "
                ++ sampleTask.checkpointFilePath ++ "\n\n",
              sampleEnv.treeString tree ++ "\n"], none)
      ∧ bm.Value = "Overview of Mounts" ∧ bs.Value = "CRIU dump statistics"
      ∧ bp.Value = "Process tree"
      ∧ tree.Nodes = (buildTree sampleEnv.ByteToString
            (containerInfo.mk "" "" "" "2024-01-01" "podman")
            (ContainerConfig.mk "abc123" "alpine" "runc") (archiveSizes.mk 1048576 0)).2.Nodes
          ++ (if (Toggles.mk true true true).mounts then [bm] else [])
          ++ (if (Toggles.mk true true true).stats then [bs] else [])
          ++ (if (Toggles.mk true true true).psTree then [bp] else [])
      ∧ ((∃ c ∈ tree.Nodes, c.Value = "Overview of Mounts")
          ↔ (Toggles.mk true true true).mounts = true)
      ∧ ((∃ c ∈ tree.Nodes, c.Value = "CRIU dump statistics")
          ↔ (Toggles.mk true true true).stats = true)
      ∧ ((∃ c ∈ tree.Nodes, c.Value = "Process tree")
          ↔ (Toggles.mk true true true).psTree = true) :=
  renderTreeView_branches sampleEnv (Toggles.mk true true true) sampleTask []
    (ContainerConfig.mk "abc123" "alpine" "runc")
    (Spec.mk [Mount.mk "/data" "bind" "/host/data"])
    (containerInfo.mk "" "" "" "2024-01-01" "podman") (archiveSizes.mk 1048576 0)
    (DumpStatsEntry.mk (some 0) (some 0) (some 0) (some 0) (some 0) (some 0))
    (PsTree.mk 1 "init" [PsTree.mk 5 "sh" []])
    rfl rfl rfl rfl (fun _ => rfl) (fun _ => rfl)

/-! ## The root tree builder and its record -/

/-- The record after `buildTree`. -/
theorem buildTree_ci (bts : Int → String) (ci : containerInfo) (cfg : ContainerConfig)
    (sz : archiveSizes) :
    (buildTree bts ci cfg sz).1
      = (if ci.Name = "" then containerInfo.mk "Container" ci.IP ci.MAC ci.Created ci.Engine
         else ci) := by
  by_cases hn : ci.Name = "" <;> simp [buildTree, hn]

/-- C13: with a rendering of byte counts that gives "1.00MiB" for 1048576, the
record with empty name, image alpine, ID abc123, runtime runc, creation time
2024-01-01, engine podman, no IP, no MAC and the sizes 1048576 and 0 gives the
root "Container" with exactly the six leaves of the scenario. -/
theorem buildTree_scenario (bts : Int → String) (h : bts 1048576 = "1.00MiB") :
    (buildTree bts (containerInfo.mk "" "" "" "2024-01-01" "podman")
        (ContainerConfig.mk "abc123" "alpine" "runc") (archiveSizes.mk 1048576 0)).2
      = Node.mk none "Container"
          [Node.mk none "Image: alpine" [],
           Node.mk none "ID: abc123" [],
           Node.mk none "Runtime: runc" [],
           Node.mk none "Created: 2024-01-01" [],
           Node.mk none "Engine: podman" [],
           Node.mk none "Checkpoint Size: 1.00MiB" []] := by
  rw [buildTree_tree]
  simp +decide [h]

/-- The rendering modelled from the specification satisfies the condition of
C13, and the scenario holds with it. -/
theorem buildTree_scenario_witness :
    ByteToStringSpec 1048576 = "1.00MiB"
      ∧ (buildTree ByteToStringSpec (containerInfo.mk "" "" "" "2024-01-01" "podman")
          (ContainerConfig.mk "abc123" "alpine" "runc") (archiveSizes.mk 1048576 0)).2
        = Node.mk none "Container"
            [Node.mk none "Image: alpine" [],
             Node.mk none "ID: abc123" [],
             Node.mk none "Runtime: runc" [],
             Node.mk none "Created: 2024-01-01" [],
             Node.mk none "Engine: podman" [],
             Node.mk none "Checkpoint Size: 1.00MiB" []] :=
  ⟨by decide, buildTree_scenario ByteToStringSpec (by decide)⟩

/-- C14, as stated, fails: `buildTree` changes the name of a record whose name
is empty. -/
theorem buildTree_changes_empty_name :
    (containerInfo.mk "" "" "" "2024-01-01" "podman").Name = ""
      ∧ (buildTree sampleEnv.ByteToString (containerInfo.mk "" "" "" "2024-01-01" "podman")
          (ContainerConfig.mk "abc123" "alpine" "runc") (archiveSizes.mk 1048576 0)).1.Name
        = "Container"
      ∧ (buildTree sampleEnv.ByteToString (containerInfo.mk "" "" "" "2024-01-01" "podman")
          (ContainerConfig.mk "abc123" "alpine" "runc") (archiveSizes.mk 1048576 0)).1
        ≠ containerInfo.mk "" "" "" "2024-01-01" "podman" := by
  decide

/-- C14, amended: `buildTree` leaves the fields IP, MAC, creation time and
engine of the record as they are, leaves a non-empty name as it is and replaces
an empty name by "Container"; the three appenders leave the records they read
as they are. -/
theorem buildTree_record_after (bts : Int → String) (ci : containerInfo)
    (cfg : ContainerConfig) (sz : archiveSizes) (t : Node) (spec : Spec)
    (d : DumpStatsEntry) (p : PsTree) :
    (buildTree bts ci cfg sz).1.Name = (if ci.Name = "" then "Container" else ci.Name)
      ∧ (buildTree bts ci cfg sz).1.IP = ci.IP
      ∧ (buildTree bts ci cfg sz).1.MAC = ci.MAC
      ∧ (buildTree bts ci cfg sz).1.Created = ci.Created
      ∧ (buildTree bts ci cfg sz).1.Engine = ci.Engine
      ∧ (addMountsToTreeInput t spec).2 = spec
      ∧ (addDumpStatsToTreeInput t d).2 = d
      ∧ (addPsTreeToTreeInput t p).2 = p := by
  rw [buildTree_ci]
  by_cases hn : ci.Name = "" <;>
    simp [hn, addMountsToTreeInput, addDumpStatsToTreeInput, addPsTreeToTreeInput]

/-- C19: a second call of `buildTree` on the record as the first call left it
returns the same tree and leaves the record as it is, and after each call the
name of the record is the label of the root. -/
theorem buildTree_repeatable (bts : Int → String) (ci : containerInfo) (cfg : ContainerConfig)
    (sz : archiveSizes) :
    (buildTree bts (buildTree bts ci cfg sz).1 cfg sz).2 = (buildTree bts ci cfg sz).2
      ∧ (buildTree bts (buildTree bts ci cfg sz).1 cfg sz).1 = (buildTree bts ci cfg sz).1
      ∧ (buildTree bts ci cfg sz).1.Name = (buildTree bts ci cfg sz).2.Value
      ∧ (buildTree bts (buildTree bts ci cfg sz).1 cfg sz).1.Name
          = (buildTree bts (buildTree bts ci cfg sz).1 cfg sz).2.Value := by
  simp only [buildTree_tree, buildTree_ci]
  by_cases hn : ci.Name = ""
  · simp +decide [hn]
  · simp [hn]

/-! ## The recursion of the process-tree appender -/

mutual
/-- A traced call of `processNodes` builds what the plain call builds, visits
the processes of the hierarchy in pre-order and nests as deep as the hierarchy. -/
theorem processNodesTraced_eq (p : PsTree) (st : Node) (h : Handle) (level : Nat)
    (tr : Trace) :
    processNodesTraced st h level tr p
      = (processNodes st h p,
         Trace.mk (tr.visited ++ p.preorder) (max tr.maxDepth (level + p.depth))) := by
  match p with
  | PsTree.mk pid comm children =>
    simp only [processNodesTraced, processNodes, PsTree.preorder, PsTree.depth]
    rw [processNodesLoopTraced_eq children _ _ (level + 1) _ (Nat.le_max_right _ _)]
    simp only [List.append_assoc, List.singleton_append, Prod.mk.injEq, Trace.mk.injEq,
      true_and]
    omega
/-- The traced loop of `processNodes`. -/
theorem processNodesLoopTraced_eq (cs : List PsTree) (st : Node) (h : Handle) (level : Nat)
    (tr : Trace) (hl : level ≤ tr.maxDepth) :
    processNodesLoopTraced st h level tr cs
      = (processNodesLoop st h cs,
         Trace.mk (tr.visited ++ PsTree.preorderList cs)
           (max tr.maxDepth (level + PsTree.depthList cs))) := by
  match cs with
  | [] =>
    simp only [processNodesLoopTraced, processNodesLoop, PsTree.preorderList,
      PsTree.depthList, List.append_nil, Nat.add_zero, Nat.max_eq_left hl]
  | c :: rest =>
    simp only [processNodesLoopTraced, processNodesLoop, PsTree.preorderList,
      PsTree.depthList]
    rw [processNodesTraced_eq c st h level tr,
      processNodesLoopTraced_eq rest _ h level _ (Nat.le_trans hl (Nat.le_max_left _ _))]
    simp only [List.append_assoc, Prod.mk.injEq, Trace.mk.injEq, true_and]
    omega
end

/-- The traced appender. -/
theorem addPsTreeToTreeTraced_eq (t : Node) (p : PsTree) :
    addPsTreeToTreeTraced t p = (addPsTreeToTree t p, Trace.mk p.preorder p.depth) := by
  simp only [addPsTreeToTreeTraced, addPsTreeToTree, AddBranch_root]
  rw [processNodesTraced_eq]
  simp

mutual
theorem mirror_height (p : PsTree) : (mirror p).height = p.depth := by
  match p with
  | PsTree.mk pid comm children =>
    simp [mirror, Node.height, PsTree.depth, mirrorList_height children]
theorem mirrorList_height (cs : List PsTree) :
    Node.heightList (mirrorList cs) = PsTree.depthList cs := by
  match cs with
  | [] => rfl
  | c :: rest =>
    simp [mirrorList, Node.heightList, PsTree.depthList, mirror_height c,
      mirrorList_height rest]
end

mutual
theorem preorder_length (p : PsTree) : p.preorder.length = p.size := by
  match p with
  | PsTree.mk pid comm children =>
    simp [PsTree.preorder, PsTree.size, preorderList_length children, Nat.add_comm]
theorem preorderList_length (cs : List PsTree) :
    (PsTree.preorderList cs).length = PsTree.sizeList cs := by
  match cs with
  | [] => rfl
  | c :: rest =>
    simp [PsTree.preorderList, PsTree.sizeList, preorder_length c, preorderList_length rest]
end

theorem chain_depth (n : Nat) : (chain n).depth = n + 1 := by
  induction n with
  | zero => rfl
  | succ n ih => simp [chain, PsTree.depth, PsTree.depthList, ih, Nat.add_comm]

/-- C15: on every process hierarchy the recursion of `addPsTreeToTree` returns;
it calls `processNodes` once on each process, in pre-order, so as many times as
there are processes; the calls nest as deep as the hierarchy, and the mirrored
subtree it builds is as high as the hierarchy is deep. -/
theorem addPsTreeToTree_recursion (t : Node) (p : PsTree) :
    addPsTreeToTreeTraced t p = (addPsTreeToTree t p, Trace.mk p.preorder p.depth)
      ∧ (addPsTreeToTreeTraced t p).2.visited.length = p.size
      ∧ (addPsTreeToTreeTraced t p).2.maxDepth = p.depth
      ∧ (addPsTreeToTree t p).Nodes.getLast?
          = some (Node.mk none "Process tree" [mirror p])
      ∧ (mirror p).height = p.depth := by
  rw [addPsTreeToTreeTraced_eq, addPsTreeToTree_eq]
  simp [preorder_length, mirror_height]

/-- C16, as stated, fails: no ceiling bounds the nesting of the calls of
`processNodes`. -/
theorem addPsTreeToTree_no_ceiling :
    ¬ ∃ ceiling : Nat, ∀ p : PsTree, ceiling < p.depth →
        (addPsTreeToTreeTraced (NewWithRoot "Container") p).2.maxDepth ≤ ceiling := by
  rintro ⟨ceiling, hc⟩
  have h := hc (chain ceiling) (by rw [chain_depth]; omega)
  rw [addPsTreeToTreeTraced_eq] at h
  simp only [chain_depth] at h
  omega

/-- C16, amended: `addPsTreeToTree` has no depth ceiling and no error result;
on every process hierarchy its calls nest as deep as the hierarchy and it
returns the tree with the whole hierarchy mirrored, and for every ceiling there
is a hierarchy deeper than the ceiling. -/
theorem addPsTreeToTree_full_depth (t : Node) (p : PsTree) (ceiling : Nat) :
    (addPsTreeToTreeTraced t p).2.maxDepth = p.depth
      ∧ (addPsTreeToTreeTraced t p).1
          = Node.mk t.Meta t.Value (t.Nodes ++ [Node.mk none "Process tree" [mirror p]])
      ∧ (mirror p).height = p.depth
      ∧ ceiling < (chain ceiling).depth
      ∧ (addPsTreeToTreeTraced t (chain ceiling)).2.maxDepth = ceiling + 1 := by
  rw [addPsTreeToTreeTraced_eq, addPsTreeToTreeTraced_eq, addPsTreeToTree_eq]
  simp [mirror_height, chain_depth]

/-! ## The orchestrator: failures and output -/

/-- When no collaborator fails, the loop body has a tree. -/
theorem renderTreeViewTree_of_not_fails (env : Collaborators) (opts : Toggles) (t : task)
    (h : collaboratorFails env opts t = false) :
    ∃ tree, renderTreeViewTree env opts t = Except.ok tree := by
  unfold collaboratorFails at h
  unfold renderTreeViewTree
  cases h1 : env.ReadContainerCheckpointConfigDump t.outputDir with
  | error e => simp [h1, Except.isOk, Except.toBool] at h
  | ok cfg =>
    cases h2 : env.ReadContainerCheckpointSpecDump t.outputDir with
    | error e => simp [h1, h2, Except.isOk, Except.toBool] at h
    | ok spec =>
      cases h3 : env.getContainerInfo t.outputDir spec cfg with
      | error e => simp [h1, h2, h3, Except.isOk, Except.toBool] at h
      | ok ci =>
        cases h4 : env.getArchiveSizes t.checkpointFilePath with
        | error e => simp [h1, h2, h3, h4, Except.isOk, Except.toBool] at h
        | ok sz =>
          cases h5 : env.GetDumpStats t.outputDir <;>
            cases h6 : env.ExplorePs t.outputDir <;>
            cases hs : opts.stats <;> cases hp : opts.psTree <;>
            simp_all [Except.isOk, Except.toBool]

/-- When a collaborator fails, the loop body returns an error. -/
theorem renderTreeViewTree_of_fails (env : Collaborators) (opts : Toggles) (t : task)
    (h : collaboratorFails env opts t = true) :
    ∃ e, renderTreeViewTree env opts t = Except.error e := by
  unfold collaboratorFails at h
  cases h1 : env.ReadContainerCheckpointConfigDump t.outputDir with
  | error e => exact ⟨e, by simp [renderTreeViewTree, h1]⟩
  | ok cfg =>
    cases h2 : env.ReadContainerCheckpointSpecDump t.outputDir with
    | error e => exact ⟨e, by simp [renderTreeViewTree, h1, h2]⟩
    | ok spec =>
      cases h3 : env.getContainerInfo t.outputDir spec cfg with
      | error e => exact ⟨e, by simp [renderTreeViewTree, h1, h2, h3]⟩
      | ok ci =>
        cases h4 : env.getArchiveSizes t.checkpointFilePath with
        | error e => exact ⟨e, by simp [renderTreeViewTree, h1, h2, h3, h4]⟩
        | ok sz =>
          simp only [renderTreeViewTree, h1, h2, h3, h4]
          cases h5 : env.GetDumpStats t.outputDir <;>
            cases h6 : env.ExplorePs t.outputDir <;>
            cases hs : opts.stats <;> cases hp : opts.psTree <;>
            simp_all [Except.isOk, Except.toBool]

theorem renderTreeView_cons_ok (env : Collaborators) (opts : Toggles) (t : task)
    (rest : List task) (stdout : List String) (tree : Node)
    (h : renderTreeViewTree env opts t = Except.ok tree) :
    renderTreeView env opts (t :: rest) stdout
      = renderTreeView env opts rest
          (stdout ++ ["\nDisplaying container checkpoint tree view from "
              ++ t.checkpointFilePath ++ "\n\n",
            env.treeString tree ++ "\n"]) := by
  simp only [renderTreeView, h]

theorem renderTreeView_cons_error (env : Collaborators) (opts : Toggles) (t : task)
    (rest : List task) (stdout : List String) (e : Error)
    (h : renderTreeViewTree env opts t = Except.error e) :
    renderTreeView env opts (t :: rest) stdout = (stdout, some e) := by
  simp only [renderTreeView, h]

/-- The tasks before the first failure print their complete output, in order. -/
theorem renderTreeView_prefix (env : Collaborators) (opts : Toggles) (pre rest : List task)
    (stdout : List String) (h : ∀ t ∈ pre, collaboratorFails env opts t = false) :
    renderTreeView env opts (pre ++ rest) stdout
      = renderTreeView env opts rest
          (stdout ++ pre.flatMap (fun t => (renderTreeView env opts [t] []).1)) := by
  induction pre generalizing stdout with
  | nil => simp
  | cons a pre ih =>
    obtain ⟨tree, ht⟩ := renderTreeViewTree_of_not_fails env opts a (h a (by simp))
    rw [List.cons_append, renderTreeView_cons_ok env opts a _ stdout tree ht,
      ih _ (fun t ht => h t (by simp [ht])), List.flatMap_cons,
      renderTreeView_cons_ok env opts a [] [] tree ht]
    simp [renderTreeView]

/-- Before a failing task there is a first failing task. -/
theorem first_failure (env : Collaborators) (opts : Toggles) (tasks : List task) (i : Nat)
    (t : task) (hi : tasks[i]? = some t) (hf : collaboratorFails env opts t = true) :
    ∃ j tj, j ≤ i ∧ tasks[j]? = some tj ∧ collaboratorFails env opts tj = true
      ∧ ∀ t1 ∈ tasks.take j, collaboratorFails env opts t1 = false := by
  induction tasks generalizing i with
  | nil => simp at hi
  | cons a rest ih =>
    by_cases ha : collaboratorFails env opts a = true
    · exact ⟨0, a, Nat.zero_le _, by simp, ha, by simp⟩
    · cases i with
      | zero =>
        simp at hi
        subst hi
        exact absurd hf ha
      | succ i =>
        simp at hi
        obtain ⟨j, tj, hj, htj, hfj, hpre⟩ := ih i hi
        refine ⟨j + 1, tj, by omega, by simpa using htj, hfj, ?_⟩
        intro t1 ht1
        simp only [List.take_succ_cons, List.mem_cons] at ht1
        rcases ht1 with e | e
        · subst e; simpa using ha
        · exact hpre t1 e

theorem split_at (tasks : List task) (j : Nat) (tj : task) (h : tasks[j]? = some tj) :
    tasks = tasks.take j ++ tj :: tasks.drop (j + 1) := by
  induction tasks generalizing j with
  | nil => simp at h
  | cons a rest ih =>
    cases j with
    | zero => simp at h; simp [h]
    | succ j =>
      simp at h
      simp only [List.take_succ_cons, List.drop_succ_cons, List.cons_append]
      rw [← ih j h]

/-- C11: when a collaborator a task needs fails for the task at position i,
`renderTreeView` returns an error and prints nothing for that task: what it
prints is the complete output of the tasks before the first failing position,
which is at most i, and of the tasks before i when none of them fails; the
complete output of a task is its header followed by its serialized tree. -/
theorem renderTreeView_failure (env : Collaborators) (opts : Toggles) (tasks : List task)
    (i : Nat) (t : task) (stdout : List String) (hi : tasks[i]? = some t)
    (hfail : collaboratorFails env opts t = true) :
    (∃ e, (renderTreeView env opts tasks stdout).2 = some e)
      ∧ (renderTreeView env opts [t] []).1 = []
      ∧ (∃ j, j ≤ i ∧ (∀ t1 ∈ tasks.take j, collaboratorFails env opts t1 = false)
          ∧ (renderTreeView env opts tasks stdout).1
              = stdout ++ (tasks.take j).flatMap (fun t1 => (renderTreeView env opts [t1] []).1))
      ∧ ((∀ t1 ∈ tasks.take i, collaboratorFails env opts t1 = false) →
          ∃ e, renderTreeViewTree env opts t = Except.error e
            ∧ renderTreeView env opts tasks stdout
              = (stdout ++ (tasks.take i).flatMap
                  (fun t1 => (renderTreeView env opts [t1] []).1), some e))
      ∧ (∀ t1, collaboratorFails env opts t1 = false →
          ∃ tree, renderTreeViewTree env opts t1 = Except.ok tree
            ∧ (renderTreeView env opts [t1] []).1
              = ["\nDisplaying container checkpoint tree view from "
                    ++ t1.checkpointFilePath ++ "\n\n",
                  env.treeString tree ++ "\n"]) := by
  obtain ⟨e, he⟩ := renderTreeViewTree_of_fails env opts t hfail
  obtain ⟨j, tj, hj, htj, hfj, hpre⟩ := first_failure env opts tasks i t hi hfail
  obtain ⟨ej, hej⟩ := renderTreeViewTree_of_fails env opts tj hfj
  have hrun : renderTreeView env opts tasks stdout
      = (stdout ++ (tasks.take j).flatMap (fun t1 => (renderTreeView env opts [t1] []).1),
          some ej) := by
    have hs : renderTreeView env opts tasks stdout
        = renderTreeView env opts (tasks.take j ++ tj :: tasks.drop (j + 1)) stdout := by
      rw [← split_at tasks j tj htj]
    rw [hs, renderTreeView_prefix env opts _ _ stdout hpre,
      renderTreeView_cons_error env opts tj _ _ ej hej]
  refine ⟨⟨ej, by rw [hrun]⟩, ?_, ⟨j, hj, hpre, by rw [hrun]⟩, ?_, ?_⟩
  · rw [renderTreeView_cons_error env opts t [] [] e he]
  · intro hall
    refine ⟨e, he, ?_⟩
    have hs : renderTreeView env opts tasks stdout
        = renderTreeView env opts (tasks.take i ++ t :: tasks.drop (i + 1)) stdout := by
      rw [← split_at tasks i t hi]
    rw [hs, renderTreeView_prefix env opts _ _ stdout hall,
      renderTreeView_cons_error env opts t _ _ e he]
  · intro t1 h1
    obtain ⟨tree, ht⟩ := renderTreeViewTree_of_not_fails env opts t1 h1
    refine ⟨tree, ht, ?_⟩
    rw [renderTreeView_cons_ok env opts t1 [] [] tree ht]
    simp [renderTreeView]

/-- A run in which the second task fails: it returns an error and prints the
output of the first task only. -/
theorem renderTreeView_failure_witness :
    ([sampleTask, badTask][1]? = some badTask
        ∧ collaboratorFails configFailEnv (Toggles.mk true true true) badTask = true)
      ∧ (∃ e, (renderTreeView configFailEnv (Toggles.mk true true true)
            [sampleTask, badTask] []).2 = some e)
      ∧ (renderTreeView configFailEnv (Toggles.mk true true true)
            [sampleTask, badTask] []).1
          = ["\nDisplaying container checkpoint tree view from /tmp/cp.tar\n\n",
             "Container\n"] :=
  ⟨⟨rfl, by decide⟩,
    (renderTreeView_failure configFailEnv (Toggles.mk true true true) [sampleTask, badTask] 1
      badTask [] rfl (by decide)).1,
    by decide⟩

/-- C12: when no collaborator a task of the list needs fails, `renderTreeView`
returns no error and prints, task after task in the order of the list, the
header with the archive path of the task and then the serialized tree of the
task; what it prints for a task is what it prints for the task alone. -/
theorem renderTreeView_success (env : Collaborators) (opts : Toggles) (tasks : List task)
    (stdout : List String) (hall : ∀ t ∈ tasks, collaboratorFails env opts t = false) :
    renderTreeView env opts tasks stdout
        = (stdout ++ tasks.flatMap (fun t => (renderTreeView env opts [t] []).1), none)
      ∧ ∀ t ∈ tasks, ∃ tree, renderTreeViewTree env opts t = Except.ok tree
          ∧ renderTreeView env opts [t] []
            = (["\nDisplaying container checkpoint tree view from "
                    ++ t.checkpointFilePath ++ "\n\n",
                  env.treeString tree ++ "\n"], none) := by
  constructor
  · have h := renderTreeView_prefix env opts tasks [] stdout hall
    simp only [List.append_nil] at h
    rw [h]
    rfl
  · intro t ht
    obtain ⟨tree, htree⟩ := renderTreeViewTree_of_not_fails env opts t (hall t ht)
    refine ⟨tree, htree, ?_⟩
    rw [renderTreeView_cons_ok env opts t [] [] tree htree]
    simp [renderTreeView]

/-- A run of two tasks whose collaborators succeed. -/
theorem renderTreeView_success_witness :
    (∀ t ∈ [sampleTask, otherTask],
        collaboratorFails sampleEnv (Toggles.mk true true true) t = false)
      ∧ renderTreeView sampleEnv (Toggles.mk true true true) [sampleTask, otherTask] []
        = ([] ++ [sampleTask, otherTask].flatMap
            (fun t => (renderTreeView sampleEnv (Toggles.mk true true true) [t] []).1), none) :=
  ⟨by decide,
    (renderTreeView_success sampleEnv (Toggles.mk true true true) [sampleTask, otherTask] []
      (by decide)).1⟩

/-- The error of the loop body is the error of the collaborator that failed,
as it is or behind the prefix of the step. -/
theorem renderTreeViewTree_error_source (env : Collaborators) (opts : Toggles) (t : task)
    (e : Error) (h : renderTreeViewTree env opts t = Except.error e) :
    env.ReadContainerCheckpointConfigDump t.outputDir = Except.error e
      ∨ env.ReadContainerCheckpointSpecDump t.outputDir = Except.error e
      ∨ (∃ cfg spec, env.ReadContainerCheckpointConfigDump t.outputDir = Except.ok cfg
          ∧ env.ReadContainerCheckpointSpecDump t.outputDir = Except.ok spec
          ∧ env.getContainerInfo t.outputDir spec cfg = Except.error e)
      ∨ env.getArchiveSizes t.checkpointFilePath = Except.error e
      ∨ (opts.stats = true ∧ ∃ e1, env.GetDumpStats t.outputDir = Except.error e1
          ∧ e = "failed to get dump statistics: " ++ e1)
      ∨ (opts.psTree = true ∧ ∃ e1, env.ExplorePs t.outputDir = Except.error e1
          ∧ e = "failed to get process tree: " ++ e1) := by
  cases h1 : env.ReadContainerCheckpointConfigDump t.outputDir with
  | error e1 =>
    simp only [renderTreeViewTree, h1, Except.error.injEq] at h
    subst h
    simp
  | ok cfg =>
    cases h2 : env.ReadContainerCheckpointSpecDump t.outputDir with
    | error e2 =>
      simp only [renderTreeViewTree, h1, h2, Except.error.injEq] at h
      subst h
      simp
    | ok spec =>
      cases h3 : env.getContainerInfo t.outputDir spec cfg with
      | error e3 =>
        simp only [renderTreeViewTree, h1, h2, h3, Except.error.injEq] at h
        subst h
        simp [h3]
      | ok ci =>
        cases h4 : env.getArchiveSizes t.checkpointFilePath with
        | error e4 =>
          simp only [renderTreeViewTree, h1, h2, h3, h4, Except.error.injEq] at h
          subst h
          simp
        | ok sz =>
          simp only [renderTreeViewTree, h1, h2, h3, h4] at h
          cases h5 : env.GetDumpStats t.outputDir <;>
            cases h6 : env.ExplorePs t.outputDir <;>
            cases hs : opts.stats <;> cases hp : opts.psTree <;>
            simp_all

/-- C17, as stated, fails: the error `renderTreeView` returns when the
configuration read of one checkpoint fails and the error it returns when the
spec read of another checkpoint fails are the same text, which names neither
the directory nor the archive of the checkpoint. -/
theorem renderTreeView_error_without_context :
    (renderTreeView configFailEnv (Toggles.mk true true true) [badTask] []).2 = some "boom"
      ∧ (renderTreeView specFailEnv (Toggles.mk true true true) [sampleTask] []).2
          = some "boom"
      ∧ badTask.outputDir ≠ sampleTask.outputDir
      ∧ badTask.checkpointFilePath ≠ sampleTask.checkpointFilePath
      ∧ ¬ (badTask.outputDir.data <:+: "boom".data)
      ∧ ¬ (badTask.checkpointFilePath.data <:+: "boom".data) := by
  decide

/-- C17, amended: an error returned by `renderTreeView` is the error of the
collaborator that failed for one of the tasks: unchanged for the configuration
read, the spec read, the container facts and the archive sizes, and behind the
prefix "failed to get dump statistics: " or "failed to get process tree: " for
the two enabled optional steps; nothing about the checkpoint is added. -/
theorem renderTreeView_error_source (env : Collaborators) (opts : Toggles)
    (tasks : List task) (stdout : List String) (e : Error)
    (h : (renderTreeView env opts tasks stdout).2 = some e) :
    ∃ t ∈ tasks,
      env.ReadContainerCheckpointConfigDump t.outputDir = Except.error e
        ∨ env.ReadContainerCheckpointSpecDump t.outputDir = Except.error e
        ∨ (∃ cfg spec, env.ReadContainerCheckpointConfigDump t.outputDir = Except.ok cfg
            ∧ env.ReadContainerCheckpointSpecDump t.outputDir = Except.ok spec
            ∧ env.getContainerInfo t.outputDir spec cfg = Except.error e)
        ∨ env.getArchiveSizes t.checkpointFilePath = Except.error e
        ∨ (opts.stats = true ∧ ∃ e1, env.GetDumpStats t.outputDir = Except.error e1
            ∧ e = "failed to get dump statistics: " ++ e1)
        ∨ (opts.psTree = true ∧ ∃ e1, env.ExplorePs t.outputDir = Except.error e1
            ∧ e = "failed to get process tree: " ++ e1) := by
  induction tasks generalizing stdout with
  | nil => simp [renderTreeView] at h
  | cons a rest ih =>
    cases ha : renderTreeViewTree env opts a with
    | error e1 =>
      rw [renderTreeView_cons_error env opts a rest stdout e1 ha] at h
      simp only [Option.some.injEq] at h
      subst h
      exact ⟨a, by simp, renderTreeViewTree_error_source env opts a e1 ha⟩
    | ok tree =>
      rw [renderTreeView_cons_ok env opts a rest stdout tree ha] at h
      obtain ⟨t, ht, hd⟩ := ih _ h
      exact ⟨t, by simp [ht], hd⟩

/-- A run that returns the error of the failing configuration read. -/
theorem renderTreeView_error_source_witness :
    (renderTreeView configFailEnv (Toggles.mk true true true) [sampleTask, badTask] []).2
        = some "boom"
      ∧ ∃ t ∈ [sampleTask, badTask],
        configFailEnv.ReadContainerCheckpointConfigDump t.outputDir = Except.error "boom"
          ∨ configFailEnv.ReadContainerCheckpointSpecDump t.outputDir = Except.error "boom"
          ∨ (∃ cfg spec,
              configFailEnv.ReadContainerCheckpointConfigDump t.outputDir = Except.ok cfg
              ∧ configFailEnv.ReadContainerCheckpointSpecDump t.outputDir = Except.ok spec
              ∧ configFailEnv.getContainerInfo t.outputDir spec cfg = Except.error "boom")
          ∨ configFailEnv.getArchiveSizes t.checkpointFilePath = Except.error "boom"
          ∨ ((Toggles.mk true true true).stats = true
              ∧ ∃ e1, configFailEnv.GetDumpStats t.outputDir = Except.error e1
              ∧ "boom" = "failed to get dump statistics: " ++ e1)
          ∨ ((Toggles.mk true true true).psTree = true
              ∧ ∃ e1, configFailEnv.ExplorePs t.outputDir = Except.error e1
              ∧ "boom" = "failed to get process tree: " ++ e1) :=
  ⟨by decide,
    renderTreeView_error_source configFailEnv (Toggles.mk true true true)
      [sampleTask, badTask] [] "boom" (by decide)⟩

/-- With the statistics disabled the loop body does not depend on the
dump-statistics collaborator. -/
theorem renderTreeViewTree_stats_off (env : Collaborators) (mounts psTree : Bool) (t : task)
    (g : String → Except Error DumpStatsEntry) :
    renderTreeViewTree { env with GetDumpStats := g } (Toggles.mk mounts false psTree) t
      = renderTreeViewTree env (Toggles.mk mounts false psTree) t := by
  simp [renderTreeViewTree]

/-- With the process tree disabled the loop body does not depend on the
process-snapshot collaborator. -/
theorem renderTreeViewTree_psTree_off (env : Collaborators) (mounts stats : Bool) (t : task)
    (x : String → Except Error PsTree) :
    renderTreeViewTree { env with ExplorePs := x } (Toggles.mk mounts stats false) t
      = renderTreeViewTree env (Toggles.mk mounts stats false) t := by
  simp [renderTreeViewTree]

/-- Two collaborator records that give every task the same loop-body result and
serialize trees alike give the same run. -/
theorem renderTreeView_congr (env1 env2 : Collaborators) (opts : Toggles) (tasks : List task)
    (stdout : List String)
    (hb : ∀ t, renderTreeViewTree env1 opts t = renderTreeViewTree env2 opts t)
    (hs : env1.treeString = env2.treeString) :
    renderTreeView env1 opts tasks stdout = renderTreeView env2 opts tasks stdout := by
  induction tasks generalizing stdout with
  | nil => rfl
  | cons a rest ih =>
    simp only [renderTreeView, hb a, hs]
    cases renderTreeViewTree env2 opts a with
    | error e => rfl
    | ok tree => exact ih _

/-- C18: with the statistics toggle off, the result and the output of
`renderTreeView` do not depend on the dump-statistics collaborator, whether it
would succeed or fail; with the process-tree toggle off they do not depend on
the process-snapshot collaborator; with both off, on neither. -/
theorem renderTreeView_disabled_collaborators (env : Collaborators) (mounts stats psTree : Bool)
    (tasks : List task) (stdout : List String) (g : String → Except Error DumpStatsEntry)
    (x : String → Except Error PsTree) :
    renderTreeView { env with GetDumpStats := g } (Toggles.mk mounts false psTree) tasks stdout
        = renderTreeView env (Toggles.mk mounts false psTree) tasks stdout
      ∧ renderTreeView { env with ExplorePs := x } (Toggles.mk mounts stats false) tasks stdout
        = renderTreeView env (Toggles.mk mounts stats false) tasks stdout
      ∧ renderTreeView { env with GetDumpStats := g, ExplorePs := x }
            (Toggles.mk mounts false false) tasks stdout
        = renderTreeView env (Toggles.mk mounts false false) tasks stdout := by
  refine ⟨?_, ?_, ?_⟩
  · exact renderTreeView_congr _ _ _ _ _
      (fun t => renderTreeViewTree_stats_off env mounts psTree t g) rfl
  · exact renderTreeView_congr _ _ _ _ _
      (fun t => renderTreeViewTree_psTree_off env mounts stats t x) rfl
  · exact renderTreeView_congr _ _ _ _ _ (fun t => by simp [renderTreeViewTree]) rfl

end Checkpointctl
